import Mathlib

/-!
Verification of the DonorCRM pledge/decision core against its
natural-language specification.

The definitions below are shallow embeddings of the Python source:
- `apps/pledges/models.py` (`Pledge`: lateness, cadence arithmetic,
  fulfillment, transitions),
- `apps/pledges/tasks.py` (`check_late_pledges` batch sweep),
- `apps/journals/models.py` (`Decision`, `DecisionHistory`),
- `apps/journals/serializers.py` (`DecisionSerializer.update/create`),
- `apps/journals/views.py` (`DecisionListCreateView.create`).

Money amounts are represented exactly in cents (`ℕ`): the source stores
them as Python `Decimal` with two decimal places.  Dates are proleptic
Gregorian calendar dates; `python`'s `date` ordering and `timedelta`
arithmetic are mirrored through the rata-die ordinal `Date.toOrdinal`.
-/

/-! ## Calendar dates (shallow embedding of `datetime.date` / `dateutil.relativedelta`) -/

structure Date where
  year : ℕ
  month : ℕ
  day : ℕ
deriving DecidableEq, Repr

def isLeap (y : ℕ) : Bool :=
  y % 4 == 0 && (y % 100 != 0 || y % 400 == 0)

def daysInMonth (y m : ℕ) : ℕ :=
  if m = 2 then (if isLeap y then 29 else 28)
  else if m = 4 ∨ m = 6 ∨ m = 9 ∨ m = 11 then 30
  else 31

def daysBeforeMonth (y m : ℕ) : ℕ :=
  (List.range m).foldl (fun acc k => if 1 ≤ k then acc + daysInMonth y k else acc) 0

/-- Rata-die ordinal of a date, as in `datetime.date.toordinal`:
0001-01-01 has ordinal 1. -/
def Date.toOrdinal (dt : Date) : ℕ :=
  365 * (dt.year - 1) + ((dt.year - 1) / 4 - (dt.year - 1) / 100) + (dt.year - 1) / 400
    + daysBeforeMonth dt.year dt.month + dt.day

/-- Embedding of `dateutil.relativedelta(months := k)` addition: advance `k` calendar
months, clamping the day to the length of the target month. -/
def Date.addMonths (dt : Date) (k : ℕ) : Date :=
  let t := dt.month - 1 + k
  let y := dt.year + t / 12
  let m := t % 12 + 1
  ⟨y, m, min dt.day (daysInMonth y m)⟩

/-- Embedding of `dateutil.relativedelta(years := 1)` addition (day clamped, e.g. Feb 29). -/
def Date.addYears (dt : Date) (k : ℕ) : Date :=
  let y := dt.year + k
  ⟨y, dt.month, min dt.day (daysInMonth y dt.month)⟩

/-! ## The `Pledge` model (`apps/pledges/models.py`) -/

inductive PledgeFrequency
  | monthly
  | quarterly
  | semi_annual
  | annual
deriving DecidableEq, Repr

inductive PledgeStatus
  | active
  | paused
  | completed
  | cancelled
deriving DecidableEq, Repr

structure Donation where
  date : Date
  amountCents : ℕ
deriving DecidableEq, Repr

structure Pledge where
  amountCents : ℕ
  frequency : PledgeFrequency
  status : PledgeStatus
  start_date : Date
  end_date : Option Date
  last_fulfilled_date : Option Date
  next_expected_date : Option Date
  total_receivedCents : ℕ
  is_late : Bool
  days_late : ℕ
deriving DecidableEq, Repr

/-- Embedding of `Pledge.calculate_next_expected_date`: `None` unless active; otherwise
`(last_fulfilled_date or start_date) + relativedelta(...)` per cadence. -/
def Pledge.calculate_next_expected_date (p : Pledge) : Option Date :=
  if p.status ≠ PledgeStatus.active then none
  else
    let base_date := p.last_fulfilled_date.getD p.start_date
    some (match p.frequency with
      | .monthly => base_date.addMonths 1
      | .quarterly => base_date.addMonths 3
      | .semi_annual => base_date.addMonths 6
      | .annual => base_date.addYears 1)

/-- Embedding of `Pledge.check_late_status(grace_days)`.  `today` (the source's
`timezone.now().date()`) is passed explicitly.  The comparison
`today > next_expected_date + timedelta(days=grace_days)` and the day
difference `(today - next_expected_date).days` are expressed through the
date ordinal, exactly as `datetime` defines them. -/
def Pledge.check_late_status (p : Pledge) (today : Date) (grace_days : ℕ := 10) : Pledge :=
  match p.next_expected_date with
  | none => { p with is_late := false, days_late := 0 }
  | some ned =>
    if p.status ≠ PledgeStatus.active then
      { p with is_late := false, days_late := 0 }
    else if ned.toOrdinal + grace_days < today.toOrdinal then
      { p with is_late := true, days_late := today.toOrdinal - ned.toOrdinal }
    else
      { p with is_late := false, days_late := 0 }

/-- Embedding of `Pledge.record_fulfillment(donation)`: sets the last-fulfilled date and
running total first, then recomputes the next expected date on the updated
record, then unconditionally clears the lateness flags. -/
def Pledge.record_fulfillment (p : Pledge) (donation : Donation) : Pledge :=
  let p1 := { p with
    last_fulfilled_date := some donation.date,
    total_receivedCents := p.total_receivedCents + donation.amountCents }
  let p2 := { p1 with next_expected_date := p1.calculate_next_expected_date }
  { p2 with is_late := false, days_late := 0 }

/-- Embedding of `Pledge.pause()` (no source-state precondition in the source). -/
def Pledge.pause (p : Pledge) : Pledge :=
  { p with status := PledgeStatus.paused, is_late := false, days_late := 0 }

/-- Embedding of `Pledge.resume()`: sets the status to active, then recomputes the next
expected date on the already-updated record. -/
def Pledge.resume (p : Pledge) : Pledge :=
  let p1 := { p with status := PledgeStatus.active }
  { p1 with next_expected_date := p1.calculate_next_expected_date }

/-- Embedding of `Pledge.cancel()` (`today` is the source's `timezone.now().date()`). -/
def Pledge.cancel (p : Pledge) (today : Date) : Pledge :=
  { p with
    status := PledgeStatus.cancelled,
    end_date := some today,
    is_late := false,
    days_late := 0 }

/-! ## The batch late-check job (`apps/pledges/tasks.py`, `check_late_pledges`)

The loop body is embedded per pledge.  The source's persistence condition is

  `pledge.is_late != was_late or
   pledge.days_late != getattr(pledge, '_original_days_late', pledge.days_late)`

and no code ever sets `_original_days_late`, so the `getattr` falls back to
the pledge's current (already recomputed) `days_late`; this is kept
verbatim below. -/

/-- Result of one loop iteration of `check_late_pledges` for one pledge:
the recomputed pledge, whether it is appended to `pledges_to_update`, and
whether it is appended to `newly_late_pledges`. -/
def sweepStep (today : Date) (p : Pledge) : Pledge × Bool × Bool :=
  let was_late := p.is_late
  let p' := p.check_late_status today
  let needsUpdate := (p'.is_late != was_late) || (p'.days_late != p'.days_late)
  let newlyLate := needsUpdate && (p'.is_late && !was_late)
  (p', needsUpdate, newlyLate)

/-- Embedding of `check_late_pledges` over the active pledges of a database snapshot:
returns `(pledges_to_update, newly_late_pledges, total_count)`. -/
def check_late_pledges (today : Date) (db : List Pledge) : List Pledge × List Pledge × ℕ :=
  let active_pledges := db.filter (fun p => p.status = PledgeStatus.active)
  let stepped := active_pledges.map (sweepStep today)
  (((stepped.filter (fun s => s.2.1)).map (fun s => s.1)),
   ((stepped.filter (fun s => s.2.2)).map (fun s => s.1)),
   active_pledges.length)

/-! ## The `Decision` model (`apps/journals/models.py`) -/

inductive DecisionCadence
  | one_time
  | monthly
  | quarterly
  | annual
deriving DecidableEq, Repr

inductive DecisionStatus
  | pending
  | active
  | paused
  | declined
deriving DecidableEq, Repr

/-- The stored string of a cadence choice (`DecisionCadence.choices`). -/
def DecisionCadence.toStr : DecisionCadence → String
  | .one_time => "one_time"
  | .monthly => "monthly"
  | .quarterly => "quarterly"
  | .annual => "annual"

/-- The stored string of a status choice (`DecisionStatus.choices`). -/
def DecisionStatus.toStr : DecisionStatus → String
  | .pending => "pending"
  | .active => "active"
  | .paused => "paused"
  | .declined => "declined"

/-- Rendering `str(Decimal(...))` for a two-decimal-place amount held as cents,
e.g. `10000 ↦ "100.00"` (the `amount` column has `decimal_places=2`). -/
def centsToDecimalString (c : ℕ) : String :=
  toString (c / 100) ++ "." ++ (if c % 100 < 10 then "0" ++ toString (c % 100) else toString (c % 100))

structure Decision where
  journal_contact : ℕ
  amountCents : ℕ
  cadence : DecisionCadence
  status : DecisionStatus
deriving DecidableEq, Repr

/-- The writable payload of a (partial) decision update: DRF's
`validated_data` restricted to the serializer's writable fields
(`journal_contact`, `amount`, `cadence`, `status`; the rest of
`Meta.fields` is read-only). -/
structure DecisionUpdate where
  journal_contact : Option ℕ
  amount : Option ℕ
  cadence : Option DecisionCadence
  status : Option DecisionStatus
deriving DecidableEq, Repr

/-- The `changed_fields` JSON mapping built by `DecisionSerializer.update`:
field name → old value, iterating `['amount', 'cadence', 'status']` in
order, with `Decimal` old values passed through `str`. -/
def changedFields (inst : Decision) (vd : DecisionUpdate) : List (String × String) :=
  (match vd.amount with
   | some newAmount =>
     if inst.amountCents ≠ newAmount then [("amount", centsToDecimalString inst.amountCents)]
     else []
   | none => []) ++
  (match vd.cadence with
   | some newCadence =>
     if inst.cadence ≠ newCadence then [("cadence", inst.cadence.toStr)] else []
   | none => []) ++
  (match vd.status with
   | some newStatus =>
     if inst.status ≠ newStatus then [("status", inst.status.toStr)] else []
   | none => [])

/-- Embedding of `DecisionSerializer.update`: returns the saved instance together with
the `DecisionHistory` row's `changed_fields` mapping, when one is created.
All fields of `validated_data` (including `journal_contact`) are applied
via `setattr`; only the three tracked fields are diffed. -/
def DecisionSerializer.update (inst : Decision) (vd : DecisionUpdate) :
    Decision × Option (List (String × String)) :=
  let changed_fields := changedFields inst vd
  let history := if changed_fields ≠ [] then some changed_fields else none
  let inst' : Decision :=
    { journal_contact := vd.journal_contact.getD inst.journal_contact
      amountCents := vd.amount.getD inst.amountCents
      cadence := vd.cadence.getD inst.cadence
      status := vd.status.getD inst.status }
  (inst', history)

/-! ## Decision creation and the uniqueness constraint
(`Decision.Meta.constraints`, `DecisionListCreateView.create`) -/

/-- A decision table, by `journal_contact` id (the unique-constraint
column `unique_decision_per_journal_contact`). -/
def DecisionDb := List ℕ

/-- The persistence layer: `Decision.objects.create` raises
`IntegrityError` whose message names the violated unique constraint when a
row for the same `journal_contact` exists. -/
def dbInsertDecision (db : List ℕ) (jc : ℕ) : Except String (List ℕ) :=
  if jc ∈ db then
    Except.error "UNIQUE constraint failed: journal_decisions.journal_contact_id"
  else
    Except.ok (db ++ [jc])

inductive CreateDecisionResult
  | created (db' : List ℕ)
  | alreadyExists (detail : String)
  | serverError (message : String)
deriving DecidableEq, Repr

/-- Check that `needle` occurs at the start of `hay` (character lists). -/
def seqStartsWith : List Char → List Char → Bool
  | _, [] => true
  | [], _ :: _ => false
  | a :: hay, b :: needle => a == b && seqStartsWith hay needle

/-- Check that `needle` occurs somewhere inside `hay` (character lists). -/
def seqContains : List Char → List Char → Bool
  | [], needle => needle.isEmpty
  | a :: hay, needle => seqStartsWith (a :: hay) needle || seqContains hay needle

/-- ASCII lower-casing of one character, as `str.lower` acts on the
ASCII error messages involved here. -/
def charLower (c : Char) : Char :=
  if 'A' ≤ c ∧ c ≤ 'Z' then Char.ofNat (c.toNat + 32) else c

/-- Substring test used to embed Python's `'unique' in str(e).lower()`. -/
def containsSub (s pat : String) : Bool :=
  seqContains (s.data.map charLower) pat.data

/-- Embedding of `DecisionListCreateView.create`: attempt the insert, catch
`IntegrityError`, and translate a uniqueness violation into the
domain-level "already exists" 400 response; re-raise anything else. -/
def DecisionListCreateView.create (db : List ℕ) (jc : ℕ) : CreateDecisionResult :=
  match dbInsertDecision db jc with
  | Except.ok db' => CreateDecisionResult.created db'
  | Except.error e =>
    if containsSub e "unique" then
      CreateDecisionResult.alreadyExists "A decision already exists for this contact in this journal."
    else
      CreateDecisionResult.serverError e

/-! ## Python `decimal.Decimal` arithmetic for `Decision.monthly_equivalent`

`apps/journals/models.py` computes `round(self.amount * multiplier, 2)`
where the multipliers are `Decimal('0')`, `Decimal('1')`,
`Decimal('1') / Decimal('3')` and `Decimal('1') / Decimal('12')`, all
evaluated in Python's default decimal context: 28 significant digits,
rounding `ROUND_HALF_EVEN`.  The two division results are therefore the
28-digit coefficients `3333333333333333333333333333 · 10⁻²⁸` and
`8333333333333333333333333333 · 10⁻²⁹`.  Multiplication rounds its exact
coefficient to 28 significant digits (half-even), and `round(x, 2)`
quantizes to two decimal places (half-even again).  Amounts are cents. -/

/-- Round `a / b` to the nearest integer, ties to even (`ROUND_HALF_EVEN`),
for `0 < b`. -/
def rnd (a b : ℕ) : ℕ :=
  if 2 * (a % b) < b then a / b
  else if b < 2 * (a % b) then a / b + 1
  else if (a / b) % 2 = 0 then a / b else a / b + 1

/-- Fuel-driven decimal digit count (`ndAux fuel n` is the number of
decimal digits of `n` for `n < 10 ^ fuel`, counting `0` as one digit). -/
def ndAux : ℕ → ℕ → ℕ
  | 0, _ => 0
  | fuel + 1, n => if n < 10 then 1 else ndAux fuel (n / 10) + 1

/-- Number of decimal digits (adequate fuel for every value occurring
here, all below `10 ^ 40`). -/
def numDigits (n : ℕ) : ℕ :=
  ndAux 40 n

/-- Decimal coefficient and decimal-scale of each cadence multiplier, as
produced by Python's context division (`coefficient · 10 ^ (-scale)`). -/
def decisionMulCoeff : DecisionCadence → ℕ × ℕ
  | .one_time => (0, 0)
  | .monthly => (1, 0)
  | .quarterly => (3333333333333333333333333333, 28)
  | .annual => (8333333333333333333333333333, 29)

/-- Embedding of `Decision.monthly_equivalent` for an amount of `d` cents:
the exact product coefficient is context-rounded to 28 significant digits
(half-even), then `round(·, 2)` quantizes to cents (half-even).  The
result is returned in cents. -/
def Decision.monthly_equivalentCents (d : ℕ) (c : DecisionCadence) : ℕ :=
  let m := decisionMulCoeff c
  let x := d * m.1
  let t := numDigits x - 28
  let q := rnd x (10 ^ t)
  rnd q (10 ^ (m.2 - t))

/-- Modelled from the spec's words for comparison (not from the source):
amount times the cadence multiplier, rounded to 2 decimal places with
standard half-up rounding at the final step only. -/
def specDecisionMonthlyEquivalentHalfUpCents (d : ℕ) : DecisionCadence → ℕ
  | .one_time => 0
  | .monthly => d
  | .quarterly => (2 * d + 3) / 6
  | .annual => (d + 6) / 12

/-! ## IEEE-754 binary64 arithmetic for `Pledge.monthly_equivalent`

`apps/pledges/models.py` computes `float(self.amount) * multiplier` with
multipliers `1`, `1 / 3`, `1 / 6`, `1 / 12` (Python floats).  Floats are
modelled exactly as the dyadic rationals IEEE-754 round-to-nearest,
ties-to-even produces; every value occurring here lies well inside the
normal range, so neither overflow nor subnormals arise. -/

/-- Fuel-driven floor of the base-2 logarithm (`nlog2F fuel n` for
`1 ≤ n < 2 ^ fuel`). -/
def nlog2F : ℕ → ℕ → ℕ
  | 0, _ => 0
  | fuel + 1, n => if n ≤ 1 then 0 else nlog2F fuel (n / 2) + 1

/-- Floor base-2 logarithm (adequate fuel for all numerators and
denominators occurring here). -/
def nlog2 (n : ℕ) : ℕ :=
  nlog2F 200 n

/-- Floor base-2 logarithm of a positive rational: the unique `e` with
`2 ^ e ≤ q < 2 ^ (e + 1)`. -/
def qfloorLog2 (q : ℚ) : ℤ :=
  if (2 : ℚ) ^ ((nlog2 q.num.toNat : ℤ) - (nlog2 q.den : ℤ)) ≤ q then
    (nlog2 q.num.toNat : ℤ) - (nlog2 q.den : ℤ)
  else (nlog2 q.num.toNat : ℤ) - (nlog2 q.den : ℤ) - 1

/-- Round a nonnegative rational to the nearest integer, ties to even. -/
def rndQ (y : ℚ) : ℕ :=
  rnd y.num.toNat y.den

/-- Round a nonnegative rational to the nearest IEEE-754 binary64 value
(53-bit significand, round-to-nearest, ties-to-even). -/
def fl (q : ℚ) : ℚ :=
  if q ≤ 0 then 0
  else
    let e := qfloorLog2 q
    (rndQ (q * (2 : ℚ) ^ (52 - e)) : ℚ) * (2 : ℚ) ^ (e - 52)

/-- The Python float multiplier of each pledge frequency (`1` is the exact
int; the others are the doubles `1/3`, `1/6`, `1/12`). -/
def pledgeFloatMultiplier : PledgeFrequency → ℚ
  | .monthly => 1
  | .quarterly => fl (1 / 3)
  | .semi_annual => fl (1 / 6)
  | .annual => fl (1 / 12)

/-- Embedding of `Pledge.monthly_equivalent` for an amount of `d` cents:
`float(amount)` is the double nearest `d / 100`, and the product with the
float multiplier is rounded to double again. -/
def Pledge.monthly_equivalentQ (d : ℕ) (f : PledgeFrequency) : ℚ :=
  fl (fl ((d : ℚ) / 100) * pledgeFloatMultiplier f)

/-- Modelled from the spec's words for comparison (not from the source):
the exact frequency multiplier. -/
def specPledgeMultiplier : PledgeFrequency → ℚ
  | .monthly => 1
  | .quarterly => 1 / 3
  | .semi_annual => 1 / 6
  | .annual => 1 / 12

/-! ## Helper forms used in theorem statements -/

/-- The cadence advance applied by `calculate_next_expected_date` to its
base date. -/
def nextFromBase (base : Date) (f : PledgeFrequency) : Date :=
  match f with
  | .monthly => base.addMonths 1
  | .quarterly => base.addMonths 3
  | .semi_annual => base.addMonths 6
  | .annual => base.addYears 1

/-- Calendar offset of each pledge frequency, in months. -/
def monthsOffset : PledgeFrequency → ℕ
  | .monthly => 1
  | .quarterly => 3
  | .semi_annual => 6
  | .annual => 12

/-! ## Theorems -/

/-- C2: with a 10-day grace period, `check_late_status` clears the late
flags whenever the next expected date is unset or the status is not
active; otherwise it marks the pledge late with `days_late` measured from
the expected date (not the grace boundary) exactly when today is strictly
beyond expected + 10 days; expected = today − 15 gives late/15, today − 5
gives on-time, and today − 10 exactly is still on time (grace inclusive). -/
theorem check_late_status_spec (p : Pledge) (today : Date) :
    ((p.next_expected_date = none ∨ p.status ≠ PledgeStatus.active) →
      (p.check_late_status today).is_late = false ∧ (p.check_late_status today).days_late = 0) ∧
    (∀ ned, p.next_expected_date = some ned → p.status = PledgeStatus.active →
      (ned.toOrdinal + 10 < today.toOrdinal →
        (p.check_late_status today).is_late = true ∧
        (p.check_late_status today).days_late = today.toOrdinal - ned.toOrdinal) ∧
      (¬ ned.toOrdinal + 10 < today.toOrdinal →
        (p.check_late_status today).is_late = false ∧
        (p.check_late_status today).days_late = 0) ∧
      (today.toOrdinal = ned.toOrdinal + 15 →
        (p.check_late_status today).is_late = true ∧
        (p.check_late_status today).days_late = 15) ∧
      (today.toOrdinal = ned.toOrdinal + 5 →
        (p.check_late_status today).is_late = false ∧
        (p.check_late_status today).days_late = 0) ∧
      (today.toOrdinal = ned.toOrdinal + 10 →
        (p.check_late_status today).is_late = false)) := by
  constructor
  · rintro (h | h)
    · simp [Pledge.check_late_status, h]
    · cases hn : p.next_expected_date with
      | none => simp [Pledge.check_late_status, hn]
      | some ned => simp [Pledge.check_late_status, hn, h]
  · intro ned hn hs
    have key : p.check_late_status today =
        if ned.toOrdinal + 10 < today.toOrdinal then
          { p with is_late := true, days_late := today.toOrdinal - ned.toOrdinal }
        else { p with is_late := false, days_late := 0 } := by
      simp [Pledge.check_late_status, hn, hs]
    refine ⟨?_, ?_, ?_, ?_, ?_⟩ <;> intro h
    · rw [key, if_pos h]
      exact ⟨rfl, rfl⟩
    · rw [key, if_neg h]
      exact ⟨rfl, rfl⟩
    · rw [key, if_pos (by omega)]
      refine ⟨rfl, ?_⟩
      show today.toOrdinal - ned.toOrdinal = 15
      omega
    · rw [key, if_neg (by omega)]
      exact ⟨rfl, rfl⟩
    · rw [key, if_neg (by omega)]

theorem check_late_status_spec_witness :
    ((Pledge.mk 10000 .monthly .active ⟨2024, 3, 5⟩ none none (some ⟨2024, 3, 5⟩) 0 false 0
        |>.check_late_status ⟨2024, 3, 20⟩).is_late = true ∧
      (Pledge.mk 10000 .monthly .active ⟨2024, 3, 5⟩ none none (some ⟨2024, 3, 5⟩) 0 false 0
        |>.check_late_status ⟨2024, 3, 20⟩).days_late = 15) ∧
    (Pledge.mk 10000 .monthly .active ⟨2024, 3, 5⟩ none none (some ⟨2024, 3, 5⟩) 0 false 0
        |>.check_late_status ⟨2024, 3, 10⟩).is_late = false ∧
    (Pledge.mk 10000 .monthly .active ⟨2024, 3, 5⟩ none none (some ⟨2024, 3, 5⟩) 0 false 0
        |>.check_late_status ⟨2024, 3, 15⟩).is_late = false :=
  ⟨((check_late_status_spec _ ⟨2024, 3, 20⟩).2 ⟨2024, 3, 5⟩ rfl rfl).2.2.1 (by decide),
   (((check_late_status_spec _ ⟨2024, 3, 10⟩).2 ⟨2024, 3, 5⟩ rfl rfl).2.2.2.1 (by decide)).1,
   ((check_late_status_spec _ ⟨2024, 3, 15⟩).2 ⟨2024, 3, 5⟩ rfl rfl).2.2.2.2 (by decide)⟩

/-- C3: `calculate_next_expected_date` returns nothing unless the pledge
is active; otherwise it advances the base date (last fulfilled, else
start) by the cadence offset (1/3/6 months, 1 year) with calendar-aware
month arithmetic: the target month is exactly `offset` months later and
the day is clamped to the target month's length; in particular
2024-01-31 + 1 month = 2024-02-29 and 2024-01-15 + 1 month = 2024-02-15. -/
theorem calculate_next_expected_date_spec (p : Pledge) :
    (p.status ≠ PledgeStatus.active → p.calculate_next_expected_date = none) ∧
    (p.status = PledgeStatus.active →
      p.calculate_next_expected_date =
        some (nextFromBase (p.last_fulfilled_date.getD p.start_date) p.frequency)) ∧
    (∀ base : Date, 1 ≤ base.month →
      12 * (nextFromBase base p.frequency).year + (nextFromBase base p.frequency).month =
        12 * base.year + base.month + monthsOffset p.frequency ∧
      (nextFromBase base p.frequency).day =
        min base.day
          (daysInMonth (nextFromBase base p.frequency).year (nextFromBase base p.frequency).month)) ∧
    nextFromBase ⟨2024, 1, 31⟩ PledgeFrequency.monthly = ⟨2024, 2, 29⟩ ∧
    nextFromBase ⟨2024, 1, 15⟩ PledgeFrequency.monthly = ⟨2024, 2, 15⟩ := by
  refine ⟨?_, ?_, ?_, by decide, by decide⟩
  · intro h
    simp [Pledge.calculate_next_expected_date, h]
  · intro h
    simp [Pledge.calculate_next_expected_date, h, nextFromBase]
  · intro base hb
    cases hf : p.frequency <;>
      simp [nextFromBase, Date.addMonths, Date.addYears, monthsOffset] <;> omega

theorem calculate_next_expected_date_spec_witness :
    (Pledge.mk 10000 .monthly .active ⟨2024, 1, 31⟩ none none none 0 false 0
      |>.calculate_next_expected_date) = some ⟨2024, 2, 29⟩ ∧
    (Pledge.mk 10000 .monthly .active ⟨2024, 1, 15⟩ none none none 0 false 0
      |>.calculate_next_expected_date) = some ⟨2024, 2, 15⟩ ∧
    (Pledge.mk 10000 .monthly .paused ⟨2024, 1, 31⟩ none none none 0 false 0
      |>.calculate_next_expected_date) = none := by
  refine ⟨?_, ?_, ?_⟩
  · rw [(calculate_next_expected_date_spec _).2.1 rfl]
    decide
  · rw [(calculate_next_expected_date_spec _).2.1 rfl]
    decide
  · exact (calculate_next_expected_date_spec _).1 (by decide)

/-- C4: `record_fulfillment` on a pledge of any status records the
donation date as last fulfilled, adds the donation amount to the running
total, recomputes the next expected date on the updated record (so it
becomes `none` when the pledge is not active, and the cadence advance of
the donation date when it is), and unconditionally clears the late flags. -/
theorem record_fulfillment_spec (p : Pledge) (don : Donation) :
    (p.record_fulfillment don).last_fulfilled_date = some don.date ∧
    (p.record_fulfillment don).total_receivedCents = p.total_receivedCents + don.amountCents ∧
    (p.record_fulfillment don).is_late = false ∧
    (p.record_fulfillment don).days_late = 0 ∧
    (p.record_fulfillment don).status = p.status ∧
    (p.status ≠ PledgeStatus.active → (p.record_fulfillment don).next_expected_date = none) ∧
    (p.status = PledgeStatus.active →
      (p.record_fulfillment don).next_expected_date = some (nextFromBase don.date p.frequency)) := by
  refine ⟨rfl, rfl, rfl, rfl, rfl, ?_, ?_⟩
  · intro h
    simp [Pledge.record_fulfillment, Pledge.calculate_next_expected_date, h]
  · intro h
    simp [Pledge.record_fulfillment, Pledge.calculate_next_expected_date, h, nextFromBase]

theorem record_fulfillment_spec_witness :
    ((Pledge.mk 10000 .monthly .paused ⟨2024, 1, 1⟩ none none none 0 true 12
        |>.record_fulfillment ⟨⟨2024, 5, 1⟩, 10000⟩).total_receivedCents = 10000) ∧
    ((Pledge.mk 10000 .monthly .paused ⟨2024, 1, 1⟩ none none none 0 true 12
        |>.record_fulfillment ⟨⟨2024, 5, 1⟩, 10000⟩).last_fulfilled_date = some ⟨2024, 5, 1⟩) ∧
    ((Pledge.mk 10000 .monthly .paused ⟨2024, 1, 1⟩ none none none 0 true 12
        |>.record_fulfillment ⟨⟨2024, 5, 1⟩, 10000⟩).is_late = false) ∧
    ((Pledge.mk 10000 .monthly .paused ⟨2024, 1, 1⟩ none none none 0 true 12
        |>.record_fulfillment ⟨⟨2024, 5, 1⟩, 10000⟩).next_expected_date = none) :=
  ⟨(record_fulfillment_spec _ _).2.1,
   (record_fulfillment_spec _ _).1,
   (record_fulfillment_spec _ _).2.2.1,
   (record_fulfillment_spec _ _).2.2.2.2.2.1 (by decide)⟩

/-- C9: the entity-level transitions accept any source state: `pause`
always yields a paused pledge with cleared late flags, `resume` always
yields an active pledge whose next expected date is recomputed from
(last fulfilled, else start) + cadence and hence non-null, and `cancel`
always yields a cancelled pledge with end date = today and cleared late
flags. -/
theorem pledge_transitions_spec (p : Pledge) (today : Date) :
    (p.pause.status = PledgeStatus.paused ∧ p.pause.is_late = false ∧ p.pause.days_late = 0) ∧
    (p.resume.status = PledgeStatus.active ∧
      p.resume.next_expected_date =
        some (nextFromBase (p.last_fulfilled_date.getD p.start_date) p.frequency) ∧
      p.resume.next_expected_date ≠ none) ∧
    ((p.cancel today).status = PledgeStatus.cancelled ∧
      (p.cancel today).end_date = some today ∧
      (p.cancel today).is_late = false ∧ (p.cancel today).days_late = 0) := by
  refine ⟨⟨rfl, rfl, rfl⟩, ⟨rfl, ?_, ?_⟩, ⟨rfl, rfl, rfl, rfl⟩⟩
  · simp [Pledge.resume, Pledge.calculate_next_expected_date, nextFromBase]
  · simp [Pledge.resume, Pledge.calculate_next_expected_date]

/-- C5: evaluation of the batch job at a failing input.  An active pledge
stored as already late with `days_late = 15` whose recomputation yields
`days_late = 20` (still late) has its days-late count changed, yet
`check_late_pledges` puts it neither in `pledges_to_update` (so the
change is not persisted, because `_original_days_late` is never set and
the `getattr` fallback makes that comparison vacuous) nor — correctly —
in `newly_late_pledges`. -/
theorem check_late_pledges_misses_days_late_change :
    (Pledge.check_late_status
        ⟨10000, .monthly, .active, ⟨2024, 1, 1⟩, none, none, some ⟨2024, 3, 1⟩, 0, true, 15⟩
        ⟨2024, 3, 21⟩).days_late = 20 ∧
    (Pledge.check_late_status
        ⟨10000, .monthly, .active, ⟨2024, 1, 1⟩, none, none, some ⟨2024, 3, 1⟩, 0, true, 15⟩
        ⟨2024, 3, 21⟩).is_late = true ∧
    (check_late_pledges ⟨2024, 3, 21⟩
        [⟨10000, .monthly, .active, ⟨2024, 1, 1⟩, none, none, some ⟨2024, 3, 1⟩, 0, true, 15⟩]).1
      = [] ∧
    (check_late_pledges ⟨2024, 3, 21⟩
        [⟨10000, .monthly, .active, ⟨2024, 1, 1⟩, none, none, some ⟨2024, 3, 1⟩, 0, true, 15⟩]).2.1
      = [] := by
  decide

/-- C6: creating the first decision for a free pipeline-membership
succeeds; a second attempt for the same membership is answered with the
specific domain-level "already exists" response, produced from the
persistence-layer uniqueness violation; and the decision count for that
membership stays 1. -/
theorem decision_create_duplicate_spec (db : List ℕ) (jc : ℕ) (h : jc ∉ db) :
    DecisionListCreateView.create db jc = CreateDecisionResult.created (db ++ [jc]) ∧
    (db ++ [jc]).count jc = 1 ∧
    DecisionListCreateView.create (db ++ [jc]) jc =
      CreateDecisionResult.alreadyExists
        "A decision already exists for this contact in this journal." ∧
    (db ++ [jc]).count jc = 1 := by
  refine ⟨?_, ?_, ?_, ?_⟩
  · simp [DecisionListCreateView.create, dbInsertDecision, h]
  · simp [List.count_append, List.count_eq_zero.mpr h]
  · have hmem : jc ∈ db ++ [jc] := by simp
    simp only [DecisionListCreateView.create, dbInsertDecision, if_pos hmem]
    decide
  · simp [List.count_append, List.count_eq_zero.mpr h]

theorem decision_create_duplicate_spec_witness :
    DecisionListCreateView.create [] 7 = CreateDecisionResult.created [7] ∧
    DecisionListCreateView.create [7] 7 =
      CreateDecisionResult.alreadyExists
        "A decision already exists for this contact in this journal." ∧
    ([] ++ [7] : List ℕ).count 7 = 1 :=
  ⟨(decision_create_duplicate_spec [] 7 (by decide)).1,
   (decision_create_duplicate_spec [] 7 (by decide)).2.2.1,
   (decision_create_duplicate_spec [] 7 (by decide)).2.1⟩

/-- C10: an update request that changes only `journal_contact` (a
writable serializer field) is applied and persisted — the returned
instance carries the new membership reference — yet, because only
`amount`, `cadence` and `status` are diffed, no `DecisionHistory` row is
created: the rebinding leaves no audit trail. -/
theorem decision_update_rebind_no_history (inst : Decision) (jc' : ℕ)
    (_h : jc' ≠ inst.journal_contact) :
    (DecisionSerializer.update inst ⟨some jc', none, none, none⟩).1 =
      { inst with journal_contact := jc' } ∧
    (DecisionSerializer.update inst ⟨some jc', none, none, none⟩).2 = none := by
  constructor
  · simp [DecisionSerializer.update]
  · simp [DecisionSerializer.update, changedFields]

theorem decision_update_rebind_no_history_witness :
    (DecisionSerializer.update ⟨1, 10000, .monthly, .pending⟩ ⟨some 2, none, none, none⟩).1 =
      ⟨2, 10000, .monthly, .pending⟩ ∧
    (DecisionSerializer.update ⟨1, 10000, .monthly, .pending⟩ ⟨some 2, none, none, none⟩).2 =
      none :=
  ⟨(decision_update_rebind_no_history ⟨1, 10000, .monthly, .pending⟩ 2 (by decide)).1,
   (decision_update_rebind_no_history ⟨1, 10000, .monthly, .pending⟩ 2 (by decide)).2⟩

/-- Membership characterization of the `amount` key in a diff mapping. -/
theorem mem_changedFields_amount (inst : Decision) (vd : DecisionUpdate) (v : String) :
    ("amount", v) ∈ changedFields inst vd ↔
      ((∃ a, vd.amount = some a ∧ a ≠ inst.amountCents) ∧
        v = centsToDecimalString inst.amountCents) := by
  have h1 : ("amount" : String) ≠ "cadence" := by decide
  have h2 : ("amount" : String) ≠ "status" := by decide
  obtain ⟨jc, a, c, st⟩ := vd
  unfold changedFields
  rcases a with _ | a <;> rcases c with _ | c <;> rcases st with _ | st <;>
    simp only [] <;> (try split_ifs) <;>
    simp_all [List.mem_append, Prod.mk.injEq, eq_comm]

/-- Membership characterization of the `cadence` key in a diff mapping. -/
theorem mem_changedFields_cadence (inst : Decision) (vd : DecisionUpdate) (v : String) :
    ("cadence", v) ∈ changedFields inst vd ↔
      ((∃ c, vd.cadence = some c ∧ c ≠ inst.cadence) ∧ v = inst.cadence.toStr) := by
  have h1 : ("cadence" : String) ≠ "amount" := by decide
  have h2 : ("cadence" : String) ≠ "status" := by decide
  obtain ⟨jc, a, c, st⟩ := vd
  unfold changedFields
  rcases a with _ | a <;> rcases c with _ | c <;> rcases st with _ | st <;>
    simp only [] <;> (try split_ifs) <;>
    simp_all [List.mem_append, Prod.mk.injEq, eq_comm]

/-- Membership characterization of the `status` key in a diff mapping. -/
theorem mem_changedFields_status (inst : Decision) (vd : DecisionUpdate) (v : String) :
    ("status", v) ∈ changedFields inst vd ↔
      ((∃ s, vd.status = some s ∧ s ≠ inst.status) ∧ v = inst.status.toStr) := by
  have h1 : ("status" : String) ≠ "amount" := by decide
  have h2 : ("status" : String) ≠ "cadence" := by decide
  obtain ⟨jc, a, c, st⟩ := vd
  unfold changedFields
  rcases a with _ | a <;> rcases c with _ | c <;> rcases st with _ | st <;>
    simp only [] <;> (try split_ifs) <;>
    simp_all [List.mem_append, Prod.mk.injEq, eq_comm]

/-- The diff mapping is nonempty exactly when some tracked field is
present in the request with a value different from the current one. -/
theorem changedFields_ne_nil_iff (inst : Decision) (vd : DecisionUpdate) :
    changedFields inst vd ≠ [] ↔
      ((∃ a, vd.amount = some a ∧ a ≠ inst.amountCents) ∨
       (∃ c, vd.cadence = some c ∧ c ≠ inst.cadence) ∨
       (∃ s, vd.status = some s ∧ s ≠ inst.status)) := by
  obtain ⟨jc, a, c, st⟩ := vd
  unfold changedFields
  rcases a with _ | a <;> rcases c with _ | c <;> rcases st with _ | st <;>
    simp only [] <;> (try split_ifs) <;>
    simp_all [List.mem_append, ne_comm]

/-- C1: for an update request carrying a subset of
{amount, cadence, status}, a history row is produced if and only if at
least one of the tracked fields is present with a value different from
the current one; its mapping sends each changed field name to the OLD
value (amounts as their decimal string); and no row is produced when
every included field equals its current value. -/
theorem decision_update_history_spec (inst : Decision) (vd : DecisionUpdate)
    (_hjc : vd.journal_contact = none) :
    ((DecisionSerializer.update inst vd).2 ≠ none ↔
      ((∃ a, vd.amount = some a ∧ a ≠ inst.amountCents) ∨
       (∃ c, vd.cadence = some c ∧ c ≠ inst.cadence) ∨
       (∃ s, vd.status = some s ∧ s ≠ inst.status))) ∧
    (∀ l, (DecisionSerializer.update inst vd).2 = some l →
      (∀ v, ("amount", v) ∈ l ↔
        ((∃ a, vd.amount = some a ∧ a ≠ inst.amountCents) ∧
          v = centsToDecimalString inst.amountCents)) ∧
      (∀ v, ("cadence", v) ∈ l ↔
        ((∃ c, vd.cadence = some c ∧ c ≠ inst.cadence) ∧ v = inst.cadence.toStr)) ∧
      (∀ v, ("status", v) ∈ l ↔
        ((∃ s, vd.status = some s ∧ s ≠ inst.status) ∧ v = inst.status.toStr))) ∧
    ((vd.amount = none ∨ vd.amount = some inst.amountCents) →
      (vd.cadence = none ∨ vd.cadence = some inst.cadence) →
      (vd.status = none ∨ vd.status = some inst.status) →
      (DecisionSerializer.update inst vd).2 = none) := by
  have hu : (DecisionSerializer.update inst vd).2 =
      if changedFields inst vd ≠ [] then some (changedFields inst vd) else none := rfl
  refine ⟨?_, ?_, ?_⟩
  · rw [hu]
    by_cases hne : changedFields inst vd = []
    · rw [if_neg (by simp [hne])]
      exact iff_of_false (by simp)
        (fun hd => (by simp [hne] : ¬ changedFields inst vd ≠ [])
          ((changedFields_ne_nil_iff inst vd).mpr hd))
    · rw [if_pos hne]
      exact iff_of_true (by simp) ((changedFields_ne_nil_iff inst vd).mp hne)
  · intro l hl
    rw [hu] at hl
    by_cases hne : changedFields inst vd = []
    · rw [if_neg (by simp [hne])] at hl
      cases hl
    · rw [if_pos hne] at hl
      cases hl
      exact ⟨mem_changedFields_amount inst vd,
             mem_changedFields_cadence inst vd,
             mem_changedFields_status inst vd⟩
  · intro ha hc hs
    rw [hu, if_neg]
    intro hne
    rcases (changedFields_ne_nil_iff inst vd).mp hne with ⟨a, haa, hd⟩ | ⟨c, hcc, hd⟩ | ⟨st, hss, hd⟩
    · cases ha with
      | inl h => rw [h] at haa; cases haa
      | inr h => rw [h] at haa; exact hd (Option.some.inj haa).symm
    · cases hc with
      | inl h => rw [h] at hcc; cases hcc
      | inr h => rw [h] at hcc; exact hd (Option.some.inj hcc).symm
    · cases hs with
      | inl h => rw [h] at hss; cases hss
      | inr h => rw [h] at hss; exact hd (Option.some.inj hss).symm

theorem decision_update_history_spec_witness :
    (DecisionSerializer.update ⟨7, 10000, .monthly, .pending⟩
        ⟨none, some 20000, some .quarterly, none⟩).2 =
      some [("amount", "100.00"), ("cadence", "monthly")] ∧
    (DecisionSerializer.update ⟨7, 10000, .monthly, .pending⟩
        ⟨none, some 20000, some .quarterly, none⟩).2 ≠ none ∧
    (DecisionSerializer.update ⟨7, 10000, .monthly, .pending⟩
        ⟨none, some 10000, some .monthly, some .pending⟩).2 = none :=
  ⟨by decide,
   (decision_update_history_spec ⟨7, 10000, .monthly, .pending⟩
      ⟨none, some 20000, some .quarterly, none⟩ rfl).1.mpr
     (Or.inl ⟨20000, rfl, by decide⟩),
   (decision_update_history_spec ⟨7, 10000, .monthly, .pending⟩
      ⟨none, some 10000, some .monthly, some .pending⟩ rfl).2.2
     (Or.inr rfl) (Or.inr rfl) (Or.inr rfl)⟩

theorem rnd_one (a : ℕ) : rnd a 1 = a := by
  simp [rnd, Nat.mod_one, Nat.div_one]

/-- Half-even rounding error bound: `rnd a b` is within half of `b` of
the exact quotient, i.e. `|2 (rnd a b) b - 2 a| ≤ b`. -/
theorem rnd_err (a b : ℕ) (hb : 0 < b) : |2 * (rnd a b : ℤ) * b - 2 * a| ≤ b := by
  have hdm : (a : ℤ) = b * ((a / b : ℕ) : ℤ) + ((a % b : ℕ) : ℤ) := by
    exact_mod_cast (Nat.div_add_mod a b).symm
  have hr : a % b < b := Nat.mod_lt a hb
  unfold rnd
  split_ifs with g1 g2 g3
  · have e : 2 * ((a / b : ℕ) : ℤ) * b - 2 * a = -(2 * ((a % b : ℕ) : ℤ)) := by
      rw [hdm]; ring
    rw [e, abs_le]
    constructor <;> omega
  · have e : 2 * ((a / b + 1 : ℕ) : ℤ) * b - 2 * a =
        2 * b - 2 * ((a % b : ℕ) : ℤ) := by
      rw [Nat.cast_add, Nat.cast_one, hdm]; ring
    rw [e, abs_le]
    constructor <;> omega
  · have e : 2 * ((a / b : ℕ) : ℤ) * b - 2 * a = -(2 * ((a % b : ℕ) : ℤ)) := by
      rw [hdm]; ring
    rw [e, abs_le]
    constructor <;> omega
  · have e : 2 * ((a / b + 1 : ℕ) : ℤ) * b - 2 * a =
        2 * b - 2 * ((a % b : ℕ) : ℤ) := by
      rw [Nat.cast_add, Nat.cast_one, hdm]; ring
    rw [e, abs_le]
    constructor <;> omega

/-- Both half-even and any other nearest rounding are determined away
from ties: if `c` is strictly within half of `b` of `a / b` then
`rnd a b = c`. -/
theorem rnd_eq_of_close (a b c : ℕ) (hb : 0 < b)
    (h : |2 * (c : ℤ) * b - 2 * a| < b) : rnd a b = c := by
  have h1 := rnd_err a b hb
  have h2 : |2 * (rnd a b : ℤ) * b - 2 * (c : ℤ) * b| < 2 * b := by
    calc |2 * (rnd a b : ℤ) * b - 2 * (c : ℤ) * b|
        ≤ |2 * (rnd a b : ℤ) * b - 2 * a| + |2 * (a : ℤ) - 2 * (c : ℤ) * b| :=
          abs_sub_le _ (2 * (a : ℤ)) _
      _ < b + b := by
          have : |2 * (a : ℤ) - 2 * (c : ℤ) * b| = |2 * (c : ℤ) * b - 2 * a| := abs_sub_comm _ _
          omega
      _ = 2 * b := by ring
  have h3 : (2 * (b : ℤ)) * |(rnd a b : ℤ) - c| < 2 * b := by
    have e : 2 * (rnd a b : ℤ) * b - 2 * (c : ℤ) * b = (2 * b) * ((rnd a b : ℤ) - c) := by
      ring
    rw [e, abs_mul, abs_of_nonneg (by positivity : (0 : ℤ) ≤ 2 * b)] at h2
    exact h2
  have h4 : |(rnd a b : ℤ) - c| < 1 := by
    by_contra hcon
    push_neg at hcon
    have := mul_le_mul_of_nonneg_left hcon (by positivity : (0 : ℤ) ≤ 2 * b)
    omega
  have h5 := abs_lt.mp h4
  have : (rnd a b : ℤ) = c := by omega
  exact_mod_cast this

/-- Half-even rounding at an exact tie `c + 1/2` rounds to the even
neighbour. -/
theorem rnd_tie (c k : ℕ) (hk : 0 < k) :
    rnd (c * (2 * k) + k) (2 * k) = if c % 2 = 0 then c else c + 1 := by
  have hk2 : k < 2 * k := by omega
  have hdiv : (c * (2 * k) + k) / (2 * k) = c := by
    rw [mul_comm c (2 * k), Nat.mul_add_div (by omega), Nat.div_eq_of_lt hk2, add_zero]
  have hmod : (c * (2 * k) + k) % (2 * k) = k := by
    rw [mul_comm c (2 * k), Nat.mul_add_mod, Nat.mod_eq_of_lt hk2]
  unfold rnd
  simp only [hdiv, hmod]
  rw [if_neg (by omega), if_neg (by omega)]

/-- Characterization of the fuel-driven digit count: for `0 < n < 10 ^ fuel`
it returns the genuine decimal digit count. -/
theorem ndAux_bounds (fuel : ℕ) : ∀ n : ℕ, 0 < n → n < 10 ^ fuel →
    1 ≤ ndAux fuel n ∧ 10 ^ (ndAux fuel n - 1) ≤ n ∧ n < 10 ^ ndAux fuel n := by
  induction fuel with
  | zero =>
    intro n h0 hlt
    exact absurd h0 (by simpa using hlt)
  | succ f ih =>
    intro n h0 hlt
    by_cases h : n < 10
    · simp only [ndAux, if_pos h]
      refine ⟨le_refl 1, by simpa using h0, by simpa using h⟩
    · have h10 : 0 < n / 10 := Nat.div_pos (by omega) (by norm_num)
      have hdm := Nat.div_add_mod n 10
      have hlt' : n / 10 < 10 ^ f := by
        have hp : n < 10 ^ f * 10 := by
          rw [← pow_succ]
          exact hlt
        omega
      obtain ⟨k1, k2, k3⟩ := ih (n / 10) h10 hlt'
      have hnd : ndAux (f + 1) n = ndAux f (n / 10) + 1 := by
        simp [ndAux, h]
      rw [hnd]
      refine ⟨by omega, ?_, ?_⟩
      · have e : ndAux f (n / 10) + 1 - 1 = (ndAux f (n / 10) - 1) + 1 := by omega
        rw [e, pow_succ]
        have := Nat.mul_le_mul_right 10 k2
        omega
      · rw [pow_succ]
        have := Nat.mul_le_mul_right 10 k3
        omega

/-- Upper bound on the digit count from an upper bound on the number. -/
theorem numDigits_le (n k : ℕ) (h0 : 0 < n) (hk : n < 10 ^ k) (hk40 : k ≤ 40) :
    numDigits n ≤ k := by
  unfold numDigits
  obtain ⟨b1, b2, b3⟩ := ndAux_bounds 40 n h0
    (lt_of_lt_of_le hk (Nat.pow_le_pow_right (by norm_num) hk40))
  by_contra hcon
  push_neg at hcon
  have := Nat.pow_le_pow_right (by norm_num : 0 < 10) (by omega : k ≤ ndAux 40 n - 1)
  omega

/-- Lower bound on the digit count from a lower bound on the number. -/
theorem numDigits_ge (n k : ℕ) (h0 : 0 < n) (hn : n < 10 ^ 40) (hk : 10 ^ k ≤ n) :
    k < numDigits n := by
  unfold numDigits
  obtain ⟨b1, b2, b3⟩ := ndAux_bounds 40 n h0 hn
  by_contra hcon
  push_neg at hcon
  have := Nat.pow_le_pow_right (by norm_num : 0 < 10) hcon
  omega

/-- Composition of the 28-significant-digit context rounding with the
final 2-decimal-place quantization: when a candidate answer `c` at scale
`10 ^ E` has enough margin, the two-stage rounding returns `c`. -/
theorem twoStage_eq (x E c : ℕ) (hx0 : 0 < x) (hx38 : x < 10 ^ 38) (hE : 28 ≤ E)
    (hmargin : |2 * (c : ℤ) * 10 ^ E - 2 * (x : ℤ)| + 10 ^ 10 < 10 ^ E) :
    rnd (rnd x (10 ^ (numDigits x - 28))) (10 ^ (E - (numDigits x - 28))) = c := by
  set t := numDigits x - 28 with ht
  have hnd : numDigits x ≤ 38 := numDigits_le x 38 hx0 hx38 (by norm_num)
  have ht10 : t ≤ 10 := by omega
  have htE : t ≤ E := by omega
  have herr1 := rnd_err x (10 ^ t) (by positivity)
  set Q := rnd x (10 ^ t) with hQ
  have hcastt : ((10 ^ t : ℕ) : ℤ) = (10 : ℤ) ^ t := by push_cast; ring
  rw [hcastt] at herr1
  have hsm : ((10 : ℤ) ^ t) ≤ 10 ^ 10 := by
    have := Nat.pow_le_pow_right (by norm_num : 0 < 10) ht10
    exact_mod_cast this
  have hkey : |2 * (c : ℤ) * 10 ^ E - 2 * (Q : ℤ) * 10 ^ t| < 10 ^ E := by
    have tri : |2 * (c : ℤ) * 10 ^ E - 2 * (Q : ℤ) * 10 ^ t| ≤
        |2 * (c : ℤ) * 10 ^ E - 2 * (x : ℤ)| + |2 * (x : ℤ) - 2 * (Q : ℤ) * 10 ^ t| :=
      abs_sub_le _ _ _
    have hflip : |2 * (x : ℤ) - 2 * (Q : ℤ) * 10 ^ t| =
        |2 * (Q : ℤ) * 10 ^ t - 2 * (x : ℤ)| := abs_sub_comm _ _
    omega
  have hsplit : (10 : ℤ) ^ E = 10 ^ (E - t) * 10 ^ t := by
    rw [← pow_add]
    congr 1
    omega
  have hkey2 : |2 * (c : ℤ) * 10 ^ (E - t) - 2 * (Q : ℤ)| * 10 ^ t <
      10 ^ (E - t) * 10 ^ t := by
    calc |2 * (c : ℤ) * 10 ^ (E - t) - 2 * (Q : ℤ)| * 10 ^ t
        = |(2 * (c : ℤ) * 10 ^ (E - t) - 2 * (Q : ℤ)) * 10 ^ t| := by
          rw [abs_mul, abs_of_nonneg (by positivity : (0 : ℤ) ≤ 10 ^ t)]
      _ = |2 * (c : ℤ) * 10 ^ E - 2 * (Q : ℤ) * 10 ^ t| := by
          congr 1
          rw [hsplit]
          ring
      _ < 10 ^ E := hkey
      _ = 10 ^ (E - t) * 10 ^ t := hsplit
  have hkey3 : |2 * (c : ℤ) * 10 ^ (E - t) - 2 * (Q : ℤ)| < 10 ^ (E - t) :=
    lt_of_mul_lt_mul_right hkey2 (by positivity)
  refine rnd_eq_of_close Q (10 ^ (E - t)) c (by positivity) ?_
  have hcast2 : ((10 ^ (E - t) : ℕ) : ℤ) = (10 : ℤ) ^ (E - t) := by push_cast; ring
  rw [hcast2]
  exact hkey3

/-- Quarterly decision amounts: the two-stage decimal computation equals
half-even rounding of the exact `amount / 3` in cents (ties never occur). -/
theorem decision_me_quarterly (d : ℕ) (h1 : 1 ≤ d) (h2 : d < 10 ^ 10) :
    Decision.monthly_equivalentCents d DecisionCadence.quarterly = rnd d 3 := by
  have hme : Decision.monthly_equivalentCents d DecisionCadence.quarterly =
      rnd (rnd (d * 3333333333333333333333333333)
            (10 ^ (numDigits (d * 3333333333333333333333333333) - 28)))
          (10 ^ (28 - (numDigits (d * 3333333333333333333333333333) - 28))) := rfl
  rw [hme]
  have hx0 : 0 < d * 3333333333333333333333333333 := Nat.mul_pos (by omega) (by norm_num)
  have hx38 : d * 3333333333333333333333333333 < 10 ^ 38 := by
    calc d * 3333333333333333333333333333
        ≤ 10 ^ 10 * 3333333333333333333333333333 := Nat.mul_le_mul_right _ (by omega)
      _ < 10 ^ 38 := by norm_num
  apply twoStage_eq _ 28 _ hx0 hx38 (by norm_num)
  have herrc := rnd_err d 3 (by norm_num)
  have hc2 : |2 * ((rnd d 3 : ℕ) : ℤ) * 3 - 2 * (d : ℤ)| ≤ 2 := by
    rcases abs_le.mp herrc with ⟨l, r⟩
    rw [abs_le]
    constructor <;> omega
  have hxid : (6 : ℤ) * ((d * 3333333333333333333333333333 : ℕ) : ℤ) =
      2 * (d : ℤ) * 10 ^ 28 - 2 * (d : ℤ) := by
    push_cast
    ring_nf
  have h3 : (3 : ℤ) * |2 * ((rnd d 3 : ℕ) : ℤ) * 10 ^ 28 -
        2 * ((d * 3333333333333333333333333333 : ℕ) : ℤ)| =
      |6 * ((rnd d 3 : ℕ) : ℤ) * 10 ^ 28 -
        6 * ((d * 3333333333333333333333333333 : ℕ) : ℤ)| := by
    rw [show (3 : ℤ) = |3| from rfl, ← abs_mul]
    congr 1
    ring
  have hb : |6 * ((rnd d 3 : ℕ) : ℤ) * 10 ^ 28 -
      6 * ((d * 3333333333333333333333333333 : ℕ) : ℤ)| ≤ 2 * 10 ^ 28 + 2 * 10 ^ 10 := by
    have e : 6 * ((rnd d 3 : ℕ) : ℤ) * 10 ^ 28 -
        6 * ((d * 3333333333333333333333333333 : ℕ) : ℤ) =
        (2 * ((rnd d 3 : ℕ) : ℤ) * 3 - 2 * (d : ℤ)) * 10 ^ 28 + 2 * (d : ℤ) := by
      linear_combination (-1 : ℤ) * hxid
    rw [e]
    calc |(2 * ((rnd d 3 : ℕ) : ℤ) * 3 - 2 * (d : ℤ)) * 10 ^ 28 + 2 * (d : ℤ)|
        ≤ |(2 * ((rnd d 3 : ℕ) : ℤ) * 3 - 2 * (d : ℤ)) * 10 ^ 28| + |2 * (d : ℤ)| :=
          abs_add _ _
      _ = |2 * ((rnd d 3 : ℕ) : ℤ) * 3 - 2 * (d : ℤ)| * 10 ^ 28 + 2 * (d : ℤ) := by
          rw [abs_mul, abs_of_nonneg (by positivity : (0 : ℤ) ≤ 10 ^ 28),
            abs_of_nonneg (by positivity : (0 : ℤ) ≤ 2 * (d : ℤ))]
      _ ≤ 2 * 10 ^ 28 + 2 * (d : ℤ) := by
          have := mul_le_mul_of_nonneg_right hc2 (by positivity : (0 : ℤ) ≤ 10 ^ 28)
          omega
      _ ≤ 2 * 10 ^ 28 + 2 * 10 ^ 10 := by
          have hd : (d : ℤ) ≤ 10 ^ 10 := by exact_mod_cast h2.le
          omega
  have hp : (5 : ℤ) * 10 ^ 10 < 10 ^ 28 := by norm_num
  have habs : (0 : ℤ) ≤ |2 * ((rnd d 3 : ℕ) : ℤ) * 10 ^ 28 -
      2 * ((d * 3333333333333333333333333333 : ℕ) : ℤ)| := abs_nonneg _
  omega

/-- Annual decision amounts away from half-cent ties (`d % 12 ≠ 6`): the
two-stage decimal computation equals half-even (= nearest) rounding of
the exact `amount / 12` in cents. -/
theorem decision_me_annual_notie (d : ℕ) (h1 : 1 ≤ d) (h2 : d < 10 ^ 10)
    (h6 : d % 12 ≠ 6) :
    Decision.monthly_equivalentCents d DecisionCadence.annual = rnd d 12 := by
  have hme : Decision.monthly_equivalentCents d DecisionCadence.annual =
      rnd (rnd (d * 8333333333333333333333333333)
            (10 ^ (numDigits (d * 8333333333333333333333333333) - 28)))
          (10 ^ (29 - (numDigits (d * 8333333333333333333333333333) - 28))) := rfl
  rw [hme]
  have hx0 : 0 < d * 8333333333333333333333333333 := Nat.mul_pos (by omega) (by norm_num)
  have hx38 : d * 8333333333333333333333333333 < 10 ^ 38 := by
    calc d * 8333333333333333333333333333
        ≤ 10 ^ 10 * 8333333333333333333333333333 := Nat.mul_le_mul_right _ (by omega)
      _ < 10 ^ 38 := by norm_num
  apply twoStage_eq _ 29 _ hx0 hx38 (by norm_num)
  have herrc := rnd_err d 12 (by norm_num)
  have hc10 : |2 * ((rnd d 12 : ℕ) : ℤ) * 12 - 2 * (d : ℤ)| ≤ 10 := by
    rcases abs_le.mp herrc with ⟨l, r⟩
    rw [abs_le]
    constructor <;> omega
  have hxid : (24 : ℤ) * ((d * 8333333333333333333333333333 : ℕ) : ℤ) =
      2 * (d : ℤ) * 10 ^ 29 - 8 * (d : ℤ) := by
    push_cast
    ring_nf
  have h12 : (12 : ℤ) * |2 * ((rnd d 12 : ℕ) : ℤ) * 10 ^ 29 -
        2 * ((d * 8333333333333333333333333333 : ℕ) : ℤ)| =
      |24 * ((rnd d 12 : ℕ) : ℤ) * 10 ^ 29 -
        24 * ((d * 8333333333333333333333333333 : ℕ) : ℤ)| := by
    rw [show (12 : ℤ) = |12| from rfl, ← abs_mul]
    congr 1
    ring
  have hb : |24 * ((rnd d 12 : ℕ) : ℤ) * 10 ^ 29 -
      24 * ((d * 8333333333333333333333333333 : ℕ) : ℤ)| ≤
      10 * 10 ^ 29 + 8 * 10 ^ 10 := by
    have e : 24 * ((rnd d 12 : ℕ) : ℤ) * 10 ^ 29 -
        24 * ((d * 8333333333333333333333333333 : ℕ) : ℤ) =
        (2 * ((rnd d 12 : ℕ) : ℤ) * 12 - 2 * (d : ℤ)) * 10 ^ 29 + 8 * (d : ℤ) := by
      linear_combination (-1 : ℤ) * hxid
    rw [e]
    calc |(2 * ((rnd d 12 : ℕ) : ℤ) * 12 - 2 * (d : ℤ)) * 10 ^ 29 + 8 * (d : ℤ)|
        ≤ |(2 * ((rnd d 12 : ℕ) : ℤ) * 12 - 2 * (d : ℤ)) * 10 ^ 29| + |8 * (d : ℤ)| :=
          abs_add _ _
      _ = |2 * ((rnd d 12 : ℕ) : ℤ) * 12 - 2 * (d : ℤ)| * 10 ^ 29 + 8 * (d : ℤ) := by
          rw [abs_mul, abs_of_nonneg (by positivity : (0 : ℤ) ≤ 10 ^ 29),
            abs_of_nonneg (by positivity : (0 : ℤ) ≤ 8 * (d : ℤ))]
      _ ≤ 10 * 10 ^ 29 + 8 * (d : ℤ) := by
          have := mul_le_mul_of_nonneg_right hc10 (by positivity : (0 : ℤ) ≤ 10 ^ 29)
          omega
      _ ≤ 10 * 10 ^ 29 + 8 * 10 ^ 10 := by
          have hd : (d : ℤ) ≤ 10 ^ 10 := by exact_mod_cast h2.le
          omega
  have hp : (10 : ℤ) * 10 ^ 10 < 10 ^ 29 := by norm_num
  have habs : (0 : ℤ) ≤ |2 * ((rnd d 12 : ℕ) : ℤ) * 10 ^ 29 -
      2 * ((d * 8333333333333333333333333333 : ℕ) : ℤ)| := abs_nonneg _
  omega

/-- Annual decision amounts at exact half-cent ties (`d % 12 = 6`): the
context rounding of the product lands exactly on the tie, and the final
quantization resolves it to the even cent — again half-even rounding of
the exact `amount / 12`. -/
theorem decision_me_annual_tie (d : ℕ) (h1 : 1 ≤ d) (h2 : d < 10 ^ 10)
    (h6 : d % 12 = 6) :
    Decision.monthly_equivalentCents d DecisionCadence.annual = rnd d 12 := by
  have hme : Decision.monthly_equivalentCents d DecisionCadence.annual =
      rnd (rnd (d * 8333333333333333333333333333)
            (10 ^ (numDigits (d * 8333333333333333333333333333) - 28)))
          (10 ^ (29 - (numDigits (d * 8333333333333333333333333333) - 28))) := rfl
  rw [hme]
  set k := d / 12 with hk
  have hd : d = 12 * k + 6 := by omega
  set x := d * 8333333333333333333333333333 with hx
  have hx0 : 0 < x := Nat.mul_pos (by omega) (by norm_num)
  have hx38 : x < 10 ^ 38 := by
    calc x ≤ 10 ^ 10 * 8333333333333333333333333333 :=
        Nat.mul_le_mul_right _ (by omega)
      _ < 10 ^ 38 := by norm_num
  have hxT : x + (4 * k + 2) = (2 * k + 1) * 5 * 10 ^ 28 := by
    rw [hx, hd]
    ring_nf
  have hlow : 10 ^ 28 ≤ x := by
    calc (10 : ℕ) ^ 28 ≤ 6 * 8333333333333333333333333333 := by norm_num
      _ ≤ d * 8333333333333333333333333333 := Nat.mul_le_mul_right _ (by omega)
  obtain ⟨hnd1, hnd2, hnd3⟩ := ndAux_bounds 40 x hx0
    (lt_of_lt_of_le hx38 (by norm_num))
  have hndeq : numDigits x = ndAux 40 x := rfl
  have hnd28 : 28 < numDigits x := numDigits_ge x 28 hx0
    (lt_of_lt_of_le hx38 (by norm_num)) hlow
  have hnd38 : numDigits x ≤ 38 := numDigits_le x 38 hx0 hx38 (by norm_num)
  set t := numDigits x - 28 with ht
  have ht1 : 1 ≤ t := by omega
  have ht10 : t ≤ 10 := by omega
  have hpowsplit : 10 ^ t * 10 ^ 28 = 10 ^ numDigits x := by
    rw [← pow_add]
    congr 1
    omega
  have hupper : x < 10 ^ t * 10 ^ 28 := by
    rw [hpowsplit, hndeq]
    exact hnd3
  have h8k : 8 * k + 4 < 10 ^ t := by
    have hxge : (8 * k + 4) * 10 ^ 28 ≤ x := by
      have c1 : (8 : ℕ) * 10 ^ 28 ≤ 12 * 8333333333333333333333333333 := by norm_num
      have c2 : (4 : ℕ) * 10 ^ 28 ≤ 6 * 8333333333333333333333333333 := by norm_num
      calc (8 * k + 4) * 10 ^ 28 = 8 * 10 ^ 28 * k + 4 * 10 ^ 28 := by ring
        _ ≤ 12 * 8333333333333333333333333333 * k + 6 * 8333333333333333333333333333 :=
            Nat.add_le_add (Nat.mul_le_mul_right k c1) c2
        _ = (12 * k + 6) * 8333333333333333333333333333 := by ring
        _ = x := by rw [hx, hd]
    by_contra hcon
    push_neg at hcon
    have hmul := Nat.mul_le_mul_right (10 ^ 28) hcon
    omega
  set u := 10 ^ t with hu
  have hupos : 0 < u := by positivity
  set M := (2 * k + 1) * 5 * 10 ^ (28 - t) with hMdef
  have hMpos : 0 < M := by positivity
  have hMT : M * u = (2 * k + 1) * 5 * 10 ^ 28 := by
    rw [hMdef, hu, mul_assoc, ← pow_add]
    congr 2
    omega
  have hsub : (M - 1) * u = M * u - u := by
    rw [Nat.sub_one_mul]
  have hxMu : x + (4 * k + 2) = M * u := hxT.trans hMT.symm
  have huleMu : u ≤ M * u := Nat.le_mul_of_pos_left u hMpos
  have hxeq : x = (M - 1) * u + (u - (4 * k + 2)) := by
    omega
  have hrlt : u - (4 * k + 2) < u := by omega
  have hdiv : x / u = M - 1 := by
    rw [hxeq, mul_comm (M - 1) u, Nat.mul_add_div hupos, Nat.div_eq_of_lt hrlt, add_zero]
  have hmod : x % u = u - (4 * k + 2) := by
    rw [hxeq, mul_comm (M - 1) u, Nat.mul_add_mod, Nat.mod_eq_of_lt hrlt]
  have hQ : rnd x u = M := by
    unfold rnd
    rw [hdiv, hmod, if_neg (by omega), if_pos (by omega)]
    omega
  have hB : (10 : ℕ) ^ (29 - t) = 2 * (5 * 10 ^ (28 - t)) := by
    rw [show 29 - t = (28 - t) + 1 from by omega, pow_succ]
    ring
  have hM2 : M = k * (2 * (5 * 10 ^ (28 - t))) + 5 * 10 ^ (28 - t) := by
    rw [hMdef]
    ring
  have hstep2 : rnd M (10 ^ (29 - t)) = if k % 2 = 0 then k else k + 1 := by
    rw [hB, hM2]
    exact rnd_tie k (5 * 10 ^ (28 - t)) (by positivity)
  have hrhs : rnd d 12 = if k % 2 = 0 then k else k + 1 := by
    rw [show d = k * (2 * 6) + 6 from by omega]
    exact rnd_tie k 6 (by norm_num)
  rw [hQ, hstep2, hrhs]

/-- Monthly decision amounts pass through unchanged (the multiplier is
the exact `Decimal('1')` and the amount has at most 10 digits). -/
theorem decision_me_monthly (d : ℕ) (h1 : 1 ≤ d) (h2 : d < 10 ^ 10) :
    Decision.monthly_equivalentCents d DecisionCadence.monthly = d := by
  have hme : Decision.monthly_equivalentCents d DecisionCadence.monthly =
      rnd (rnd (d * 1) (10 ^ (numDigits (d * 1) - 28)))
        (10 ^ (0 - (numDigits (d * 1) - 28))) := rfl
  have hnd : numDigits (d * 1) ≤ 10 := by
    rw [mul_one]
    exact numDigits_le d 10 (by omega) h2 (by norm_num)
  have ht0 : numDigits (d * 1) - 28 = 0 := by omega
  rw [hme, ht0]
  norm_num [rnd_one]

/-- One-time decision amounts yield zero. -/
theorem decision_me_one_time (d : ℕ) :
    Decision.monthly_equivalentCents d DecisionCadence.one_time = 0 := by
  have hme : Decision.monthly_equivalentCents d DecisionCadence.one_time =
      rnd (rnd (d * 0) (10 ^ (numDigits (d * 0) - 28)))
        (10 ^ (0 - (numDigits (d * 0) - 28))) := rfl
  rw [hme, mul_zero]
  decide

/-- Away from ties, half-even rounding of `d / 3` agrees with the
spec's half-up formula (ties at thirds of a cent cannot occur). -/
theorem rnd3_eq_halfup (d : ℕ) : rnd d 3 = (2 * d + 3) / 6 := by
  unfold rnd
  split_ifs <;> omega

/-- Away from ties (`d % 12 ≠ 6`), half-even rounding of `d / 12`
agrees with the spec's half-up formula. -/
theorem rnd12_eq_halfup_notie (d : ℕ) (h6 : d % 12 ≠ 6) : rnd d 12 = (d + 6) / 12 := by
  unfold rnd
  split_ifs <;> omega

/-- C7 counterexample: the code's `Decision.monthly_equivalent` rounds
half-even, not half-up.  For amount 0.06 with annual cadence the exact
monthly equivalent is 0.005; half-up rounding (as the claim states) gives
0.01, but the code produces 0.00. -/
theorem decision_monthly_equivalent_not_halfup :
    Decision.monthly_equivalentCents 6 DecisionCadence.annual = 0 ∧
    specDecisionMonthlyEquivalentHalfUpCents 6 DecisionCadence.annual = 1 := by
  constructor
  · decide
  · decide

/-- C7 (amended): for every representable amount (`1 ≤ d < 10 ^ 10`
cents), `Decision.monthly_equivalent` equals the amount times the cadence
multiplier (one-time→0, monthly→1, quarterly→1/3, annual→1/12) rounded to
2 decimal places with round-half-to-even (banker's) rounding of the exact
product, applied once: this agrees with the claim's half-up rounding
everywhere except exact half-cent ties, which arise only for annual
cadence when `d % 12 = 6` and are then resolved to the even cent. -/
theorem decision_monthly_equivalent_spec (d : ℕ) (h1 : 1 ≤ d) (h2 : d < 10 ^ 10) :
    Decision.monthly_equivalentCents d DecisionCadence.one_time = 0 ∧
    Decision.monthly_equivalentCents d DecisionCadence.monthly = d ∧
    Decision.monthly_equivalentCents d DecisionCadence.quarterly = rnd d 3 ∧
    Decision.monthly_equivalentCents d DecisionCadence.annual = rnd d 12 ∧
    Decision.monthly_equivalentCents d DecisionCadence.quarterly =
      specDecisionMonthlyEquivalentHalfUpCents d DecisionCadence.quarterly ∧
    (d % 12 ≠ 6 →
      Decision.monthly_equivalentCents d DecisionCadence.annual =
        specDecisionMonthlyEquivalentHalfUpCents d DecisionCadence.annual) ∧
    (d % 12 = 6 →
      Decision.monthly_equivalentCents d DecisionCadence.annual =
        (if (d / 12) % 2 = 0 then d / 12 else d / 12 + 1)) := by
  have hann : Decision.monthly_equivalentCents d DecisionCadence.annual = rnd d 12 := by
    by_cases h6 : d % 12 = 6
    · exact decision_me_annual_tie d h1 h2 h6
    · exact decision_me_annual_notie d h1 h2 h6
  refine ⟨decision_me_one_time d, decision_me_monthly d h1 h2,
    decision_me_quarterly d h1 h2, hann, ?_, ?_, ?_⟩
  · rw [decision_me_quarterly d h1 h2, rnd3_eq_halfup]
    rfl
  · intro h6
    rw [hann, rnd12_eq_halfup_notie d h6]
    rfl
  · intro h6
    rw [hann]
    have h := rnd_tie (d / 12) 6 (by norm_num)
    rw [show d / 12 * (2 * 6) + 6 = d from by omega] at h
    exact h

theorem decision_monthly_equivalent_spec_witness :
    Decision.monthly_equivalentCents 120000 DecisionCadence.annual = 10000 ∧
    Decision.monthly_equivalentCents 30000 DecisionCadence.quarterly = 10000 :=
  ⟨(decision_monthly_equivalent_spec 120000 (by norm_num) (by norm_num)).2.2.2.1.trans
      (by decide),
   (decision_monthly_equivalent_spec 30000 (by norm_num) (by norm_num)).2.2.1.trans
      (by decide)⟩

/-- Characterization of the fuel-driven binary logarithm: for
`0 < n < 2 ^ fuel` it brackets `n` between consecutive powers of two. -/
theorem nlog2F_bounds (fuel : ℕ) : ∀ n : ℕ, 0 < n → n < 2 ^ fuel →
    2 ^ nlog2F fuel n ≤ n ∧ n < 2 ^ (nlog2F fuel n + 1) := by
  induction fuel with
  | zero =>
    intro n h0 hlt
    exact absurd h0 (by simpa using hlt)
  | succ f ih =>
    intro n h0 hlt
    by_cases h : n ≤ 1
    · simp only [nlog2F, if_pos h]
      constructor
      · simpa using h0
      · simpa using Nat.lt_succ_of_le h
    · have h2 : 0 < n / 2 := Nat.div_pos (by omega) (by norm_num)
      have hdm := Nat.div_add_mod n 2
      have hlt' : n / 2 < 2 ^ f := by
        have hp : n < 2 ^ f * 2 := by
          rw [← pow_succ]
          exact hlt
        omega
      obtain ⟨k1, k2⟩ := ih (n / 2) h2 hlt'
      have hnd : nlog2F (f + 1) n = nlog2F f (n / 2) + 1 := by
        simp [nlog2F, h]
      rw [hnd]
      constructor
      · rw [pow_succ]
        have := Nat.mul_le_mul_right 2 k1
        omega
      · rw [pow_succ]
        have := Nat.mul_le_mul_right 2 k2
        omega

/-- Bracketing of the rational floor binary logarithm: for positive `q`
with bounded numerator and denominator,
`2 ^ qfloorLog2 q ≤ q < 2 ^ (qfloorLog2 q + 1)`. -/
theorem qfloorLog2_bounds (q : ℚ) (hq : 0 < q) (hnum : q.num.toNat < 2 ^ 200)
    (hden : q.den < 2 ^ 200) :
    (2 : ℚ) ^ qfloorLog2 q ≤ q ∧ q < (2 : ℚ) ^ (qfloorLog2 q + 1) := by
  have hnum0 : 0 < q.num := Rat.num_pos.mpr hq
  have ha0 : 0 < q.num.toNat := by omega
  have hb0 : 0 < q.den := q.pos
  obtain ⟨la1, la2⟩ := nlog2F_bounds 200 q.num.toNat ha0 hnum
  obtain ⟨lb1, lb2⟩ := nlog2F_bounds 200 q.den hb0 hden
  have hbQ : (0 : ℚ) < (q.den : ℚ) := by exact_mod_cast hb0
  have hcast : ((q.num.toNat : ℕ) : ℚ) = ((q.num : ℤ) : ℚ) := by
    exact_mod_cast Int.toNat_of_nonneg hnum0.le
  have hnd := Rat.num_div_den q
  rw [div_eq_iff (ne_of_gt hbQ)] at hnd
  have hqeq : q * (q.den : ℚ) = ((q.num.toNat : ℕ) : ℚ) := by
    rw [hcast, hnd]
  have key1 : q < (2 : ℚ) ^ ((nlog2 q.num.toNat : ℤ) - (nlog2 q.den : ℤ) + 1) := by
    have hstep : ((q.num.toNat : ℕ) : ℚ) <
        (2 : ℚ) ^ ((nlog2 q.num.toNat : ℤ) - (nlog2 q.den : ℤ) + 1) * (q.den : ℚ) := by
      calc ((q.num.toNat : ℕ) : ℚ)
          < ((2 ^ (nlog2 q.num.toNat + 1) : ℕ) : ℚ) := by exact_mod_cast la2
        _ = (2 : ℚ) ^ (((nlog2 q.num.toNat : ℤ) + 1)) := by
            push_cast
            rw [← zpow_natCast (2 : ℚ) (nlog2 q.num.toNat + 1)]
            push_cast
            ring_nf
        _ = (2 : ℚ) ^ ((nlog2 q.num.toNat : ℤ) - (nlog2 q.den : ℤ) + 1) *
              (2 : ℚ) ^ ((nlog2 q.den : ℕ) : ℤ) := by
            rw [← zpow_add₀ (two_ne_zero : (2 : ℚ) ≠ 0)]
            congr 1
            ring
        _ ≤ (2 : ℚ) ^ ((nlog2 q.num.toNat : ℤ) - (nlog2 q.den : ℤ) + 1) * (q.den : ℚ) := by
            apply mul_le_mul_of_nonneg_left _ (le_of_lt (by positivity))
            rw [zpow_natCast]
            exact_mod_cast lb1
    have hlt : q * (q.den : ℚ) <
        (2 : ℚ) ^ ((nlog2 q.num.toNat : ℤ) - (nlog2 q.den : ℤ) + 1) * (q.den : ℚ) := by
      rw [hqeq]
      exact hstep
    exact (mul_lt_mul_right hbQ).mp hlt
  have key2 : (2 : ℚ) ^ ((nlog2 q.num.toNat : ℤ) - (nlog2 q.den : ℤ) - 1) < q := by
    have hstep : (2 : ℚ) ^ ((nlog2 q.num.toNat : ℤ) - (nlog2 q.den : ℤ) - 1) * (q.den : ℚ) <
        ((q.num.toNat : ℕ) : ℚ) := by
      calc (2 : ℚ) ^ ((nlog2 q.num.toNat : ℤ) - (nlog2 q.den : ℤ) - 1) * (q.den : ℚ)
          < (2 : ℚ) ^ ((nlog2 q.num.toNat : ℤ) - (nlog2 q.den : ℤ) - 1) *
              (2 : ℚ) ^ (((nlog2 q.den + 1 : ℕ)) : ℤ) := by
            apply mul_lt_mul_of_pos_left _ (by positivity)
            rw [zpow_natCast]
            exact_mod_cast lb2
        _ = (2 : ℚ) ^ ((nlog2 q.num.toNat : ℕ) : ℤ) := by
            rw [← zpow_add₀ (two_ne_zero : (2 : ℚ) ≠ 0)]
            congr 1
            push_cast
            ring
        _ ≤ ((q.num.toNat : ℕ) : ℚ) := by
            rw [zpow_natCast]
            exact_mod_cast la1
    have hlt : (2 : ℚ) ^ ((nlog2 q.num.toNat : ℤ) - (nlog2 q.den : ℤ) - 1) * (q.den : ℚ) <
        q * (q.den : ℚ) := by
      rw [hqeq]
      exact hstep
    exact (mul_lt_mul_right hbQ).mp hlt
  unfold qfloorLog2
  split_ifs with h
  · exact ⟨h, key1⟩
  · constructor
    · exact le_of_lt key2
    · rw [sub_add_cancel]
      exact not_le.mp h

/-- Rounding a nonnegative rational to the nearest integer (ties to even)
moves it by at most one half. -/
theorem rndQ_err (y : ℚ) (hy : 0 ≤ y) : |(rndQ y : ℚ) - y| ≤ 1 / 2 := by
  have hd0 : 0 < y.den := y.pos
  have hdQ : (0 : ℚ) < (y.den : ℚ) := by exact_mod_cast hd0
  have h := rnd_err y.num.toNat y.den hd0
  have hq : |2 * ((rnd y.num.toNat y.den : ℕ) : ℚ) * (y.den : ℚ) -
      2 * ((y.num.toNat : ℕ) : ℚ)| ≤ (y.den : ℚ) := by
    have hcast : ((|2 * (rnd y.num.toNat y.den : ℤ) * y.den - 2 * y.num.toNat| : ℤ) : ℚ) ≤
        ((y.den : ℤ) : ℚ) := by exact_mod_cast h
    rw [Int.cast_abs] at hcast
    push_cast at hcast ⊢
    convert hcast using 2
  have hnum0 : 0 ≤ y.num := Rat.num_nonneg.mpr hy
  have hcastn : ((y.num.toNat : ℕ) : ℚ) = ((y.num : ℤ) : ℚ) := by
    exact_mod_cast Int.toNat_of_nonneg hnum0
  have hnd := Rat.num_div_den y
  rw [div_eq_iff (ne_of_gt hdQ)] at hnd
  rw [hcastn, hnd] at hq
  have e : |2 * ((rnd y.num.toNat y.den : ℕ) : ℚ) * (y.den : ℚ) - 2 * (y * (y.den : ℚ))| =
      |(rndQ y : ℚ) - y| * (2 * (y.den : ℚ)) := by
    rw [show |(rndQ y : ℚ) - y| * (2 * (y.den : ℚ)) =
        |(rndQ y : ℚ) - y| * |2 * (y.den : ℚ)| from by
          rw [abs_of_pos (by positivity : (0 : ℚ) < 2 * (y.den : ℚ))],
      ← abs_mul]
    congr 1
    show 2 * ((rnd y.num.toNat y.den : ℕ) : ℚ) * (y.den : ℚ) - 2 * (y * (y.den : ℚ)) =
      (((rnd y.num.toNat y.den : ℕ) : ℚ) - y) * (2 * (y.den : ℚ))
    ring
  rw [e] at hq
  have h2 : |(rndQ y : ℚ) - y| * (2 * (y.den : ℚ)) ≤ (1 / 2) * (2 * (y.den : ℚ)) := by
    rw [show (1 / 2 : ℚ) * (2 * (y.den : ℚ)) = (y.den : ℚ) from by ring]
    exact hq
  exact le_of_mul_le_mul_right h2 (by positivity)

/-- Relative error of binary64 rounding: for positive, size-bounded `q`
the rounded value differs from `q` by at most `q · 2⁻⁵³`. -/
theorem fl_err (q : ℚ) (hq : 0 < q) (hnum : q.num.toNat < 2 ^ 200) (hden : q.den < 2 ^ 200) :
    |fl q - q| ≤ q * (2 : ℚ) ^ (-53 : ℤ) := by
  obtain ⟨hb1, hb2⟩ := qfloorLog2_bounds q hq hnum hden
  have hflq : fl q = (rndQ (q * (2 : ℚ) ^ ((52 : ℤ) - qfloorLog2 q)) : ℚ) *
      (2 : ℚ) ^ (qfloorLog2 q - 52) := by
    unfold fl
    rw [if_neg (not_le.mpr hq)]
  set e := qfloorLog2 q with he
  set y := q * (2 : ℚ) ^ ((52 : ℤ) - e) with hy
  have hy0 : 0 ≤ y := by
    rw [hy]
    positivity
  have herr := rndQ_err y hy0
  have hyq : y * (2 : ℚ) ^ (e - 52) = q := by
    rw [hy, mul_assoc, ← zpow_add₀ (two_ne_zero : (2 : ℚ) ≠ 0),
      show (52 : ℤ) - e + (e - 52) = 0 from by ring, zpow_zero, mul_one]
  have key : fl q - q = ((rndQ y : ℚ) - y) * (2 : ℚ) ^ (e - 52) := by
    rw [hflq, sub_mul, hyq]
  rw [key, abs_mul, abs_of_pos (by positivity : (0 : ℚ) < (2 : ℚ) ^ (e - 52))]
  calc |(rndQ y : ℚ) - y| * (2 : ℚ) ^ (e - 52)
      ≤ (1 / 2) * (2 : ℚ) ^ (e - 52) := mul_le_mul_of_nonneg_right herr (by positivity)
    _ = (2 : ℚ) ^ e * (2 : ℚ) ^ (-53 : ℤ) := by
        rw [show (1 / 2 : ℚ) = (2 : ℚ) ^ (-1 : ℤ) from by norm_num,
          ← zpow_add₀ (two_ne_zero : (2 : ℚ) ≠ 0),
          ← zpow_add₀ (two_ne_zero : (2 : ℚ) ≠ 0)]
        congr 1
        ring
    _ ≤ q * (2 : ℚ) ^ (-53 : ℤ) := mul_le_mul_of_nonneg_right hb1 (by positivity)

/-- Numerator/denominator size bounds read off a fractional representation. -/
theorem rat_bound_of_eq_div (q : ℚ) (A B : ℕ) (hB : 0 < B) (heq : q = (A : ℚ) / B) :
    q.num.toNat ≤ A ∧ q.den ≤ B := by
  have hBQ : (0 : ℚ) < (B : ℚ) := by exact_mod_cast hB
  have hq0 : 0 ≤ q := by
    rw [heq]
    positivity
  have hdvd : q.den ∣ B := by
    have h := Rat.den_dvd (A : ℤ) (B : ℤ)
    rw [Rat.divInt_eq_div] at h
    push_cast at h
    rw [← heq] at h
    exact_mod_cast h
  have hdenB : q.den ≤ B := Nat.le_of_dvd hB hdvd
  refine ⟨?_, hdenB⟩
  have hdQ : (0 : ℚ) < (q.den : ℚ) := by exact_mod_cast q.pos
  have hnd := Rat.num_div_den q
  rw [div_eq_iff (ne_of_gt hdQ)] at hnd
  have hnumle : ((q.num : ℤ) : ℚ) ≤ (A : ℚ) := by
    rw [hnd]
    calc q * (q.den : ℚ) ≤ q * (B : ℚ) :=
          mul_le_mul_of_nonneg_left (by exact_mod_cast hdenB) hq0
      _ = (A : ℚ) / B * B := by rw [heq]
      _ = (A : ℚ) := by field_simp
  have : q.num ≤ (A : ℤ) := by exact_mod_cast hnumle
  omega

/-- Shape of a rounded double in the range relevant here: a natural
numerator of at most 53 bits over a power-of-two denominator. -/
theorem fl_shape (q : ℚ) (hq : 0 < q) (hnum : q.num.toNat < 2 ^ 200) (hden : q.den < 2 ^ 200)
    (hub : q < (2 : ℚ) ^ (27 : ℤ)) (hlb : (2 : ℚ) ^ (-8 : ℤ) ≤ q) :
    ∃ n s : ℕ, n ≤ 2 ^ 53 ∧ s ≤ 60 ∧ fl q = (n : ℚ) / ((2 ^ s : ℕ) : ℚ) := by
  obtain ⟨hb1, hb2⟩ := qfloorLog2_bounds q hq hnum hden
  have hflq : fl q = (rndQ (q * (2 : ℚ) ^ ((52 : ℤ) - qfloorLog2 q)) : ℚ) *
      (2 : ℚ) ^ (qfloorLog2 q - 52) := by
    unfold fl
    rw [if_neg (not_le.mpr hq)]
  set e := qfloorLog2 q with he
  have heub : e < 27 := by
    by_contra hcon
    push_neg at hcon
    have h1 : (2 : ℚ) ^ (27 : ℤ) ≤ (2 : ℚ) ^ e :=
      zpow_le_zpow_right₀ (by norm_num) hcon
    linarith
  have helb : -8 ≤ e := by
    by_contra hcon
    push_neg at hcon
    have h1 : (2 : ℚ) ^ (e + 1) ≤ (2 : ℚ) ^ (-8 : ℤ) :=
      zpow_le_zpow_right₀ (by norm_num) (by omega)
    linarith
  have hy0 : (0 : ℚ) ≤ q * (2 : ℚ) ^ ((52 : ℤ) - e) := by positivity
  have herr := rndQ_err (q * (2 : ℚ) ^ ((52 : ℤ) - e)) hy0
  have hylt : q * (2 : ℚ) ^ ((52 : ℤ) - e) < (2 : ℚ) ^ (53 : ℕ) := by
    calc q * (2 : ℚ) ^ ((52 : ℤ) - e) < (2 : ℚ) ^ (e + 1) * (2 : ℚ) ^ ((52 : ℤ) - e) :=
          mul_lt_mul_of_pos_right hb2 (by positivity)
      _ = (2 : ℚ) ^ (53 : ℕ) := by
          rw [← zpow_add₀ (two_ne_zero : (2 : ℚ) ≠ 0),
            show e + 1 + ((52 : ℤ) - e) = ((53 : ℕ) : ℤ) from by push_cast; ring,
            zpow_natCast]
  refine ⟨rndQ (q * (2 : ℚ) ^ ((52 : ℤ) - e)), (52 - e).toNat, ?_, by omega, ?_⟩
  · have h53cast : ((2 ^ 53 + 1 : ℕ) : ℚ) = (2 : ℚ) ^ (53 : ℕ) + 1 := by
      push_cast
      ring
    have habs := (abs_le.mp herr).2
    have hlt : ((rndQ (q * (2 : ℚ) ^ ((52 : ℤ) - e)) : ℕ) : ℚ) <
        ((2 ^ 53 + 1 : ℕ) : ℚ) := by
      rw [h53cast]
      linarith
    have hfin : rndQ (q * (2 : ℚ) ^ ((52 : ℤ) - e)) < 2 ^ 53 + 1 := by exact_mod_cast hlt
    omega
  · rw [hflq]
    have hs : ((52 - e).toNat : ℤ) = 52 - e := Int.toNat_of_nonneg (by omega)
    have hpowcast : ((2 ^ (52 - e).toNat : ℕ) : ℚ) = (2 : ℚ) ^ ((52 : ℤ) - e) := by
      push_cast
      rw [← zpow_natCast (2 : ℚ) (52 - e).toNat, hs]
    rw [show (2 : ℚ) ^ (e - 52) = ((2 ^ (52 - e).toNat : ℕ) : ℚ)⁻¹ from ?_]
    · rw [div_eq_mul_inv]
    · rw [hpowcast, ← zpow_neg]
      congr 1
      ring

/-- Error of the float pipeline `fl (fl v * M)` against the exact product
`v * m`, where `M` is the stored double approximation of the multiplier
`m`: the relative error stays below `2⁻⁵⁰`. -/
theorem flmul_err (v m M : ℚ) (nM kM : ℕ)
    (hv0 : 0 < v) (hvnum : v.num.toNat < 2 ^ 200) (hvden : v.den < 2 ^ 200)
    (hvub : v < (2 : ℚ) ^ (27 : ℤ)) (hvlb : (2 : ℚ) ^ (-8 : ℤ) ≤ v)
    (hm0 : 0 < m) (hM_eq : M = (nM : ℚ) / ((2 ^ kM : ℕ) : ℚ))
    (hnM : nM ≤ 2 ^ 53) (hkM : kM ≤ 56)
    (hM_err : |M - m| ≤ m * (2 : ℚ) ^ (-53 : ℤ)) :
    |fl (fl v * M) - v * m| ≤ v * m * (2 : ℚ) ^ (-50 : ℤ) := by
  set ε := (2 : ℚ) ^ (-53 : ℤ) with hε
  have hεval : ε = 1 / 9007199254740992 := by
    rw [hε]
    norm_num
  have hεpos : 0 < ε := by rw [hεval]; norm_num
  have hεlt1 : ε < 1 := by rw [hεval]; norm_num
  have ha_err := fl_err v hv0 hvnum hvden
  obtain ⟨na, sa, hna, hsa, ha_eq⟩ := fl_shape v hv0 hvnum hvden hvub hvlb
  set A := fl v with hA
  obtain ⟨ha_l, ha_u⟩ := abs_le.mp ha_err
  have hA_ub : A ≤ v + v * ε := by linarith
  have hA_lb : v - v * ε ≤ A := by linarith
  have hvε : v * ε < v := by
    calc v * ε < v * 1 := mul_lt_mul_of_pos_left hεlt1 hv0
      _ = v := mul_one v
  have hA_pos : 0 < A := by linarith
  obtain ⟨hm_l, hm_u⟩ := abs_le.mp hM_err
  have hM_ub : M ≤ m + m * ε := by linarith
  have hmε : m * ε < m := by
    calc m * ε < m * 1 := mul_lt_mul_of_pos_left hεlt1 hm0
      _ = m := mul_one m
  have hM_pos : 0 < M := by linarith
  set P := A * M with hP
  have hP_pos : 0 < P := mul_pos hA_pos hM_pos
  have hP_ub : P ≤ (v + v * ε) * (m + m * ε) :=
    mul_le_mul hA_ub hM_ub (le_of_lt hM_pos) (by positivity)
  have hPm : |P - v * m| ≤ v * ε * (m + m * ε) + v * (m * ε) := by
    have e2 : P - v * m = (A - v) * M + v * (M - m) := by rw [hP]; ring
    calc |P - v * m| = |(A - v) * M + v * (M - m)| := by rw [e2]
      _ ≤ |(A - v) * M| + |v * (M - m)| := abs_add _ _
      _ = |A - v| * M + v * |M - m| := by
          rw [abs_mul, abs_mul, abs_of_pos hM_pos, abs_of_pos hv0]
      _ ≤ v * ε * (m + m * ε) + v * (m * ε) := by
          have t1 : |A - v| * M ≤ v * ε * (m + m * ε) :=
            mul_le_mul ha_err hM_ub (le_of_lt hM_pos) (by positivity)
          have t2 : v * |M - m| ≤ v * (m * ε) :=
            mul_le_mul_of_nonneg_left hM_err (le_of_lt hv0)
          linarith
  have hP_eq : P = ((na * nM : ℕ) : ℚ) / ((2 ^ (sa + kM) : ℕ) : ℚ) := by
    rw [hP, ha_eq, hM_eq]
    push_cast
    rw [pow_add, div_mul_div_comm]
  obtain ⟨hPnum, hPden⟩ := rat_bound_of_eq_div P (na * nM) (2 ^ (sa + kM))
    (by positivity) hP_eq
  have hP_num200 : P.num.toNat < 2 ^ 200 := by
    have h1 : na * nM ≤ 2 ^ 53 * 2 ^ 53 := Nat.mul_le_mul hna hnM
    calc P.num.toNat ≤ na * nM := hPnum
      _ ≤ 2 ^ 53 * 2 ^ 53 := h1
      _ < 2 ^ 200 := by norm_num
  have hP_den200 : P.den < 2 ^ 200 := by
    calc P.den ≤ 2 ^ (sa + kM) := hPden
      _ ≤ 2 ^ 116 := Nat.pow_le_pow_right (by norm_num) (by omega)
      _ < 2 ^ 200 := by norm_num
  have hR_err := fl_err P hP_pos hP_num200 hP_den200
  have hRP : |fl P - P| ≤ (v + v * ε) * (m + m * ε) * ε := by
    calc |fl P - P| ≤ P * ε := hR_err
      _ ≤ (v + v * ε) * (m + m * ε) * ε :=
          mul_le_mul_of_nonneg_right hP_ub (le_of_lt hεpos)
  have htri : |fl P - v * m| ≤ |fl P - P| + |P - v * m| := abs_sub_le _ P _
  have hfactor : (v + v * ε) * (m + m * ε) * ε + (v * ε * (m + m * ε) + v * (m * ε)) ≤
      v * m * (8 * ε) := by
    have hvm : (0 : ℚ) ≤ v * m := by positivity
    have h1 : (v + v * ε) * (m + m * ε) * ε + (v * ε * (m + m * ε) + v * (m * ε)) =
        v * m * (ε * ((1 + ε) ^ 2 + (1 + ε) + 1)) := by ring
    rw [h1]
    apply mul_le_mul_of_nonneg_left _ hvm
    rw [hεval]
    norm_num
  have hε50 : (2 : ℚ) ^ (-50 : ℤ) = 8 * ε := by
    rw [hε, show (-50 : ℤ) = 3 + -53 from by norm_num,
      zpow_add₀ (two_ne_zero : (2 : ℚ) ≠ 0)]
    norm_num
  rw [hε50]
  calc |fl (fl v * M) - v * m| = |fl P - v * m| := by rw [hP, hA]
    _ ≤ |fl P - P| + |P - v * m| := htri
    _ ≤ (v + v * ε) * (m + m * ε) * ε + (v * ε * (m + m * ε) + v * (m * ε)) := by linarith
    _ ≤ v * m * (8 * ε) := hfactor

/-- Evaluation scheme for `fl` at a positive rational with known
numerator, denominator, binary logarithms and rounded significand. -/
theorem fl_eval_pos (q : ℚ) (a b la lb : ℕ) (n : ℕ) (e : ℤ)
    (hq : 0 < q)
    (hnum : q.num = (a : ℤ)) (hden : q.den = b)
    (hla : nlog2 a = la) (hlb : nlog2 b = lb)
    (he : (if (2 : ℚ) ^ ((la : ℤ) - (lb : ℤ)) ≤ q then ((la : ℤ) - (lb : ℤ))
           else ((la : ℤ) - (lb : ℤ) - 1)) = e)
    (hrnd : rndQ (q * (2 : ℚ) ^ ((52 : ℤ) - e)) = n) :
    fl q = (n : ℚ) * (2 : ℚ) ^ (e - 52) := by
  have hlog : qfloorLog2 q = e := by
    unfold qfloorLog2
    rw [hnum, hden, Int.toNat_natCast, hla, hlb]
    exact he
  have hflq : fl q = (rndQ (q * (2 : ℚ) ^ ((52 : ℤ) - qfloorLog2 q)) : ℚ) *
      (2 : ℚ) ^ (qfloorLog2 q - 52) := by
    unfold fl
    rw [if_neg (not_le.mpr hq)]
  rw [hflq, hlog, hrnd]

/-- Evaluation scheme for `rndQ` with known numerator and denominator. -/
theorem rndQ_eval (y : ℚ) (a b : ℕ) (hnum : y.num = (a : ℤ)) (hden : y.den = b) :
    rndQ y = rnd a b := by
  unfold rndQ
  rw [hnum, hden, Int.toNat_natCast]

/-- The Python float `1/3` as an exact dyadic rational. -/
theorem fl_third : fl (1 / 3) = ((6004799503160661 : ℕ) : ℚ) / ((2 ^ 54 : ℕ) : ℚ) := by
  have h1 : fl (1 / 3) = ((6004799503160661 : ℕ) : ℚ) * (2 : ℚ) ^ ((-2 : ℤ) - 52) := by
    apply fl_eval_pos (1 / 3) 1 3 0 1 6004799503160661 (-2) (by norm_num)
      (by norm_num) (by norm_num) (by decide) (by decide)
    · rw [if_neg (by norm_num)]
      norm_num
    · rw [show (1 / 3 : ℚ) * (2 : ℚ) ^ ((52 : ℤ) - (-2)) =
          ((18014398509481984 : ℚ) / 3) from by norm_num,
        rndQ_eval _ 18014398509481984 3 (by norm_num) (by norm_num)]
      decide
  rw [h1]
  push_cast
  norm_num

/-- The Python float `1/6` as an exact dyadic rational. -/
theorem fl_sixth : fl (1 / 6) = ((6004799503160661 : ℕ) : ℚ) / ((2 ^ 55 : ℕ) : ℚ) := by
  have h1 : fl (1 / 6) = ((6004799503160661 : ℕ) : ℚ) * (2 : ℚ) ^ ((-3 : ℤ) - 52) := by
    apply fl_eval_pos (1 / 6) 1 6 0 2 6004799503160661 (-3) (by norm_num)
      (by norm_num) (by norm_num) (by decide) (by decide)
    · rw [if_neg (by norm_num)]
      norm_num
    · rw [show (1 / 6 : ℚ) * (2 : ℚ) ^ ((52 : ℤ) - (-3)) =
          ((36028797018963968 : ℚ) / 6) from by norm_num,
        rndQ_eval _ 18014398509481984 3 (by norm_num) (by norm_num)]
      decide
  rw [h1]
  push_cast
  norm_num

/-- The Python float `1/12` as an exact dyadic rational. -/
theorem fl_twelfth : fl (1 / 12) = ((6004799503160661 : ℕ) : ℚ) / ((2 ^ 56 : ℕ) : ℚ) := by
  have h1 : fl (1 / 12) = ((6004799503160661 : ℕ) : ℚ) * (2 : ℚ) ^ ((-4 : ℤ) - 52) := by
    apply fl_eval_pos (1 / 12) 1 12 0 3 6004799503160661 (-4) (by norm_num)
      (by norm_num) (by norm_num) (by decide) (by decide)
    · rw [if_neg (by norm_num)]
      norm_num
    · rw [show (1 / 12 : ℚ) * (2 : ℚ) ^ ((52 : ℤ) - (-4)) =
          ((72057594037927936 : ℚ) / 12) from by norm_num,
        rndQ_eval _ 18014398509481984 3 (by norm_num) (by norm_num)]
      decide
  rw [h1]
  push_cast
  norm_num

/-- The double `1/3` is within relative error `2⁻⁵³` of `1/3`. -/
theorem fl_third_err : |fl (1 / 3) - 1 / 3| ≤ 1 / 3 * (2 : ℚ) ^ (-53 : ℤ) := by
  rw [fl_third]
  push_cast
  rw [abs_le]
  constructor <;> norm_num

/-- The double `1/6` is within relative error `2⁻⁵³` of `1/6`. -/
theorem fl_sixth_err : |fl (1 / 6) - 1 / 6| ≤ 1 / 6 * (2 : ℚ) ^ (-53 : ℤ) := by
  rw [fl_sixth]
  push_cast
  rw [abs_le]
  constructor <;> norm_num

/-- The double `1/12` is within relative error `2⁻⁵³` of `1/12`. -/
theorem fl_twelfth_err : |fl (1 / 12) - 1 / 12| ≤ 1 / 12 * (2 : ℚ) ^ (-53 : ℤ) := by
  rw [fl_twelfth]
  push_cast
  rw [abs_le]
  constructor <;> norm_num

/-- The integer 300 is exactly representable as a double. -/
theorem fl_300 : fl (300 : ℚ) = 300 := by
  have h1 : fl (300 : ℚ) = ((5277655813324800 : ℕ) : ℚ) * (2 : ℚ) ^ ((8 : ℤ) - 52) := by
    apply fl_eval_pos 300 300 1 8 0 5277655813324800 8 (by norm_num) (by norm_num)
      (by norm_num) (by decide) (by decide)
    · rw [if_pos (by norm_num)]
      norm_num
    · rw [show ((300 : ℚ) * (2 : ℚ) ^ ((52 : ℤ) - 8)) = ((5277655813324800 : ℚ)) from by
          norm_num,
        rndQ_eval _ 5277655813324800 1 (by norm_num) (by norm_num)]
      exact rnd_one _
  rw [h1]
  push_cast
  norm_num

/-- The integer 100 is exactly representable as a double. -/
theorem fl_100 : fl (100 : ℚ) = 100 := by
  have h1 : fl (100 : ℚ) = ((7036874417766400 : ℕ) : ℚ) * (2 : ℚ) ^ ((6 : ℤ) - 52) := by
    apply fl_eval_pos 100 100 1 6 0 7036874417766400 6 (by norm_num) (by norm_num)
      (by norm_num) (by decide) (by decide)
    · rw [if_pos (by norm_num)]
      norm_num
    · rw [show ((100 : ℚ) * (2 : ℚ) ^ ((52 : ℤ) - 6)) = ((7036874417766400 : ℚ)) from by
          norm_num,
        rndQ_eval _ 7036874417766400 1 (by norm_num) (by norm_num)]
      exact rnd_one _
  rw [h1]
  push_cast
  norm_num

/-- Concrete run of the float pipeline: 300.00 at quarterly frequency
yields exactly 100.0 (the rounding errors cancel at this input). -/
theorem pledge_me_30000_quarterly :
    Pledge.monthly_equivalentQ 30000 PledgeFrequency.quarterly = 100 := by
  simp only [Pledge.monthly_equivalentQ, pledgeFloatMultiplier]
  rw [show ((30000 : ℕ) : ℚ) / 100 = (300 : ℚ) from by norm_num, fl_300, fl_third]
  rw [show (300 : ℚ) * (((6004799503160661 : ℕ) : ℚ) / ((2 ^ 54 : ℕ) : ℚ)) =
      (1801439850948198300 : ℚ) / 18014398509481984 from by push_cast; norm_num]
  have h1 : fl ((1801439850948198300 : ℚ) / 18014398509481984) =
      ((7036874417766400 : ℕ) : ℚ) * (2 : ℚ) ^ ((6 : ℤ) - 52) := by
    apply fl_eval_pos _ 450359962737049575 4503599627370496 58 52 7036874417766400 6
      (by norm_num) (by norm_num) (by norm_num) (by decide) (by decide)
    · rw [if_pos (by norm_num)]
      norm_num
    · rw [show ((1801439850948198300 : ℚ) / 18014398509481984) * (2 : ℚ) ^ ((52 : ℤ) - 6) =
          (450359962737049575 : ℚ) / 64 from by norm_num,
        rndQ_eval _ 450359962737049575 64 (by norm_num) (by norm_num)]
      decide
  rw [h1]
  push_cast
  norm_num

/-- Concrete run of the float pipeline: 100.00 at quarterly frequency
yields the double nearest 100/3, not 100/3 itself. -/
theorem pledge_me_10000_quarterly :
    Pledge.monthly_equivalentQ 10000 PledgeFrequency.quarterly =
      (2345624805922133 : ℚ) / 70368744177664 := by
  simp only [Pledge.monthly_equivalentQ, pledgeFloatMultiplier]
  rw [show ((10000 : ℕ) : ℚ) / 100 = (100 : ℚ) from by norm_num, fl_100, fl_third]
  rw [show (100 : ℚ) * (((6004799503160661 : ℕ) : ℚ) / ((2 ^ 54 : ℕ) : ℚ)) =
      (600479950316066100 : ℚ) / 18014398509481984 from by push_cast; norm_num]
  have h1 : fl ((600479950316066100 : ℚ) / 18014398509481984) =
      ((4691249611844266 : ℕ) : ℚ) * (2 : ℚ) ^ ((5 : ℤ) - 52) := by
    apply fl_eval_pos _ 150119987579016525 4503599627370496 57 52 4691249611844266 5
      (by norm_num) (by norm_num) (by norm_num) (by decide) (by decide)
    · rw [if_pos (by norm_num)]
      norm_num
    · rw [show ((600479950316066100 : ℚ) / 18014398509481984) * (2 : ℚ) ^ ((52 : ℤ) - 5) =
          (150119987579016525 : ℚ) / 32 from by norm_num,
        rndQ_eval _ 150119987579016525 32 (by norm_num) (by norm_num)]
      decide
  rw [h1]
  push_cast
  norm_num

/-- C8 counterexample: `Pledge.monthly_equivalent` computes in binary64
floating point, so for amount 100.00 at quarterly frequency the result is
the double `2345624805922133 / 2⁴⁶`, which is not the exact
`amount × 1/3 = 100/3`. -/
theorem pledge_monthly_equivalent_not_exact :
    Pledge.monthly_equivalentQ 10000 PledgeFrequency.quarterly ≠
      ((10000 : ℕ) : ℚ) / 100 * specPledgeMultiplier PledgeFrequency.quarterly := by
  rw [pledge_me_10000_quarterly]
  simp only [specPledgeMultiplier]
  norm_num

/-- C8 (amended): for every representable amount (`1 ≤ d < 10 ^ 10`
cents) and every frequency, `Pledge.monthly_equivalent` equals the
binary64 evaluation of `float(amount) × multiplier`, which approximates
amount times the exact multiplier (monthly→1, quarterly→1/3,
semi-annual→1/6, annual→1/12) to within relative error `2⁻⁵⁰` but is not
exactly equal to it in general; the particular value amount=300.00 with
quarterly frequency does yield exactly 100.00. -/
theorem pledge_monthly_equivalent_spec :
    (∀ (d : ℕ) (f : PledgeFrequency), 1 ≤ d → d < 10 ^ 10 →
      |Pledge.monthly_equivalentQ d f - (d : ℚ) / 100 * specPledgeMultiplier f| ≤
        (d : ℚ) / 100 * specPledgeMultiplier f * (2 : ℚ) ^ (-50 : ℤ)) ∧
    Pledge.monthly_equivalentQ 30000 PledgeFrequency.quarterly = 100 := by
  constructor
  · intro d f h1 h2
    have hd1 : (1 : ℚ) ≤ (d : ℚ) := by exact_mod_cast h1
    have hdub : (d : ℚ) < 10 ^ 10 := by exact_mod_cast h2
    have hv0 : (0 : ℚ) < (d : ℚ) / 100 := by positivity
    have hveq : (d : ℚ) / 100 = ((d : ℕ) : ℚ) / ((100 : ℕ) : ℚ) := by norm_num
    obtain ⟨hvnum', hvden'⟩ := rat_bound_of_eq_div _ d 100 (by norm_num) hveq
    have hvnum : ((d : ℚ) / 100).num.toNat < 2 ^ 200 :=
      lt_of_le_of_lt hvnum' (lt_of_lt_of_le h2 (by norm_num))
    have hvden : ((d : ℚ) / 100).den < 2 ^ 200 := lt_of_le_of_lt hvden' (by norm_num)
    have hvub : (d : ℚ) / 100 < (2 : ℚ) ^ (27 : ℤ) := by
      rw [div_lt_iff (by norm_num : (0 : ℚ) < 100)]
      calc (d : ℚ) < 10 ^ 10 := hdub
        _ ≤ (2 : ℚ) ^ (27 : ℤ) * 100 := by norm_num
    have hvlb : (2 : ℚ) ^ (-8 : ℤ) ≤ (d : ℚ) / 100 := by
      rw [le_div_iff (by norm_num : (0 : ℚ) < 100)]
      calc (2 : ℚ) ^ (-8 : ℤ) * 100 = 25 / 64 := by norm_num
        _ ≤ (d : ℚ) := by linarith
    cases f with
    | monthly =>
      simp only [Pledge.monthly_equivalentQ, pledgeFloatMultiplier, specPledgeMultiplier]
      exact flmul_err ((d : ℚ) / 100) 1 1 1 0 hv0 hvnum hvden hvub hvlb (by norm_num)
        (by norm_num) (by norm_num) (by norm_num) (by norm_num)
    | quarterly =>
      simp only [Pledge.monthly_equivalentQ, pledgeFloatMultiplier, specPledgeMultiplier]
      exact flmul_err ((d : ℚ) / 100) (1 / 3) (fl (1 / 3)) 6004799503160661 54 hv0
        hvnum hvden hvub hvlb (by norm_num) fl_third (by norm_num) (by norm_num)
        fl_third_err
    | semi_annual =>
      simp only [Pledge.monthly_equivalentQ, pledgeFloatMultiplier, specPledgeMultiplier]
      exact flmul_err ((d : ℚ) / 100) (1 / 6) (fl (1 / 6)) 6004799503160661 55 hv0
        hvnum hvden hvub hvlb (by norm_num) fl_sixth (by norm_num) (by norm_num)
        fl_sixth_err
    | annual =>
      simp only [Pledge.monthly_equivalentQ, pledgeFloatMultiplier, specPledgeMultiplier]
      exact flmul_err ((d : ℚ) / 100) (1 / 12) (fl (1 / 12)) 6004799503160661 56 hv0
        hvnum hvden hvub hvlb (by norm_num) fl_twelfth (by norm_num) (by norm_num)
        fl_twelfth_err
  · exact pledge_me_30000_quarterly

theorem pledge_monthly_equivalent_spec_witness :
    Pledge.monthly_equivalentQ 30000 PledgeFrequency.quarterly = 100 ∧
    |Pledge.monthly_equivalentQ 30000 PledgeFrequency.quarterly -
        (30000 : ℚ) / 100 * specPledgeMultiplier PledgeFrequency.quarterly| ≤
      (30000 : ℚ) / 100 * specPledgeMultiplier PledgeFrequency.quarterly *
        (2 : ℚ) ^ (-50 : ℤ) :=
  ⟨pledge_monthly_equivalent_spec.2,
   pledge_monthly_equivalent_spec.1 30000 PledgeFrequency.quarterly (by norm_num)
     (by norm_num)⟩
